import Mathlib

/-!
Verification development for the DolosAgent browser-automation core.

The definitions below are a shallow embedding of the TypeScript sources:
`src/core/agent.ts` (two-phase variant in the repository), `src/core/memory.ts`,
`src/core/loop-detector.ts`, `src/core/planning.ts` and `src/core/observation.ts`.
JavaScript machine details that matter are modelled explicitly:
string truthiness (`x || y` treats the empty string as absent), `Array.slice`
with a negative argument, `JSON.stringify` escaping, and `Map` get/set/delete.
`Date.now()` timestamps are environment noise never read by any verified
operation, so memory steps are modelled without them.
-/

namespace Dolos

/-- JS `a || b` for an optional string `a`: the empty string is falsy. -/
def jsOr : Option String → String → String
  | some s, b => if s = "" then b else s
  | none, b => b

/-- A primitive JSON value as used in tool parameter maps (zod schemas in the
repository only allow flat maps of strings and numbers). -/
inductive Prim where
  | s (v : String)
  | n (v : Int)
deriving DecidableEq

/-- A tool parameter map; key order is insertion order, as in a JS object. -/
abbrev Params := List (String × Prim)

def lookupParam (ps : Params) (k : String) : Option Prim :=
  (ps.find? (fun p => p.fst == k)).map Prod.snd

/-- `params.k || 0` for a parameter the schema declares numeric
(`loop-detector.ts` reads `a.parameters.x || 0`). -/
def paramNum (ps : Params) (k : String) : Int :=
  match lookupParam ps k with
  | some (.n v) => v
  | _ => 0

/-- `InteractiveElement` from `src/types/agent.types.ts`; coordinates are
integers because `observation.ts` applies `Math.round`. -/
structure InteractiveElement where
  tag : String
  type : Option String := none
  text : Option String := none
  placeholder : Option String := none
  ariaLabel : Option String := none
  role : Option String := none
  x : Int
  y : Int
  width : Int
  height : Int
  isVisible : Bool
deriving DecidableEq

structure ViewportSize where
  width : Nat
  height : Nat
deriving DecidableEq

/-- `BrowserState` from `src/types/agent.types.ts` (a captured snapshot). -/
structure BrowserState where
  url : String
  title : String
  screenshot : String
  elements : List InteractiveElement
  viewportSize : ViewportSize
deriving DecidableEq

/-- The `result` field of an `ActionStep` (`src/types/memory.types.ts`);
`data` is stringly modelled since only its truthiness and identity matter. -/
structure ToolResult where
  success : Bool
  data : Option String := none
  error : Option String := none
  observation : Option String := none
deriving DecidableEq

/-- `ActionStep` from `src/types/memory.types.ts` (without the timestamp). -/
structure ActionStep where
  stepNumber : Nat
  toolName : String
  parameters : Params
  reasoning : String
  observation : Option BrowserState := none
  result : Option ToolResult := none
deriving DecidableEq

/-- The tagged union `AnyMemoryStep` from `src/types/memory.types.ts`. -/
inductive MemoryStep where
  | task (task : String)
  | action (a : ActionStep)
  | planning (stepNumber : Nat) (currentFacts : List String) (nextSteps : List String)
  | visionAnalysis (stepNumber : Nat) (analysis : String) (observation : BrowserState)
deriving DecidableEq

/-- The default system prompt built by `Memory.getDefaultSystemPrompt`.  Its
exact wording is never inspected by any operation (it is only stored and
compared for identity), so the constant stands in for the full text. -/
def defaultSystemPrompt : String :=
  "You are an intelligent browser automation agent. Your goal is to complete tasks by interacting with web pages using tool calls."

/-- The `Memory` class from `src/core/memory.ts`. -/
structure Memory where
  steps : List MemoryStep
  systemPrompt : String
deriving DecidableEq

/-- `new Memory(systemPrompt?)`: `systemPrompt || getDefaultSystemPrompt()`. -/
def Memory.create (systemPrompt : Option String := none) : Memory :=
  { steps := [], systemPrompt := jsOr systemPrompt defaultSystemPrompt }

def Memory.addTaskStep (m : Memory) (task : String) : Memory :=
  { m with steps := m.steps ++ [.task task] }

def Memory.addActionStep (m : Memory) (a : ActionStep) : Memory :=
  { m with steps := m.steps ++ [.action a] }

def Memory.addPlanningStep (m : Memory) (stepNumber : Nat)
    (currentFacts nextSteps : List String) : Memory :=
  { m with steps := m.steps ++ [.planning stepNumber currentFacts nextSteps] }

def Memory.addVisionAnalysisStep (m : Memory) (stepNumber : Nat) (analysis : String)
    (observation : BrowserState) : Memory :=
  { m with steps := m.steps ++ [.visionAnalysis stepNumber analysis observation] }

def MemoryStep.actionStep : MemoryStep → Option ActionStep
  | .action a => some a
  | _ => none

def MemoryStep.isTask : MemoryStep → Bool
  | .task _ => true
  | _ => false

/-- `steps.filter(s => s.type === 'action')`. -/
def Memory.actions (m : Memory) : List ActionStep :=
  m.steps.filterMap MemoryStep.actionStep

/-- JS `arr.slice(-count)`: the last `count` elements, except that
`slice(-0)` is `slice(0)`, the whole array. -/
def jsSliceLast (l : List α) (count : Nat) : List α :=
  if count = 0 then l else l.drop (l.length - count)

/-- `Memory.getRecentActions(count = 5)`. -/
def Memory.getRecentActions (m : Memory) (count : Nat := 5) : List ActionStep :=
  jsSliceLast m.actions count

/-- One CoreMessage as produced by `Memory.toMessages()`: a user message, an
assistant message holding one tool-call part, or a tool message holding one
tool-result part. -/
inductive Message where
  | user (content : String)
  | assistantToolCall (toolCallId : String) (toolName : String) (args : Params)
  | toolResult (toolCallId : String) (toolName : String) (result : String)
deriving DecidableEq

/-- `step.result.observation || step.result.data || 'Success'`. -/
def chooseResultText (r : ToolResult) : String :=
  jsOr r.observation (jsOr r.data "Success")

/-- The tool-call id `` `${step.toolName}-${step.stepNumber}` ``. -/
def toolCallIdOf (a : ActionStep) : String :=
  a.toolName ++ "-" ++ toString a.stepNumber

/-- The scan inside `Memory.toMessages()`: one user message per task step and,
for each action step with `result?.success`, a tool-call message followed by a
tool-result message; everything else contributes nothing. -/
def stepsToMessages : List MemoryStep → List Message
  | [] => []
  | .task t :: rest => .user t :: stepsToMessages rest
  | .action a :: rest =>
    match a.result with
    | some r =>
      if r.success then
        .assistantToolCall (toolCallIdOf a) a.toolName a.parameters ::
          .toolResult (toolCallIdOf a) a.toolName (chooseResultText r) ::
            stepsToMessages rest
      else stepsToMessages rest
    | none => stepsToMessages rest
  | .planning _ _ _ :: rest => stepsToMessages rest
  | .visionAnalysis _ _ _ :: rest => stepsToMessages rest

def Memory.toMessages (m : Memory) : List Message :=
  stepsToMessages m.steps

/-- `Memory.clear()`: `this.steps = []` (the system prompt is untouched). -/
def Memory.clear (m : Memory) : Memory :=
  { m with steps := [] }

/-! ### Loop detector (`src/core/loop-detector.ts`) -/

structure LoopCheck where
  isLooping : Bool
  message : Option String := none
deriving DecidableEq

/-- `private readonly maxRepetitions = 3`. -/
def maxRepetitions : Nat := 3

/-- `LoopDetector.actionsAreSimilar`.  `JSON.stringify` equality of two
parameter maps coincides with structural equality of the ordered maps. -/
def actionsAreSimilar (a b : ActionStep) : Bool :=
  if a.toolName != b.toolName then false
  else if a.toolName == "click" || a.toolName == "type" then
    let xDiff := (paramNum a.parameters "x" - paramNum b.parameters "x").natAbs
    let yDiff := (paramNum a.parameters "y" - paramNum b.parameters "y").natAbs
    decide (xDiff < 10) && decide (yDiff < 10)
  else a.parameters == b.parameters

/-- `LoopDetector.detectLoop`. -/
def detectLoop (recentActions : List ActionStep) : LoopCheck :=
  if recentActions.length < 2 then { isLooping := false }
  else
    match recentActions.getLast? with
    | none => { isLooping := false }
    | some lastAction =>
      let repetitionCount :=
        ((jsSliceLast recentActions 5).filter (fun a => actionsAreSimilar a lastAction)).length
      if repetitionCount ≥ maxRepetitions then
        { isLooping := true
          message := some ("LOOP DETECTED: Repeated " ++ lastAction.toolName ++ " "
            ++ toString repetitionCount ++ " times. Try a different approach!") }
      else { isLooping := false }

/-! ### Planning section extraction (`src/core/planning.ts`)

`extractSection` matches the regex `` `${section}:[\s\S]*?(?=NEXT STEPS:|CONTINUE:|$)` ``
against the model's reply, splits the match on newlines, keeps bullet lines and
strips the two leading characters of each trimmed bullet line.  The regex is
modelled by its exact semantics: find the first occurrence of the header, then
extend lazily until the lookahead (`NEXT STEPS:`, `CONTINUE:` or end of input)
succeeds. -/

/-- First index at which `p` occurs as a contiguous sublist of the argument. -/
def findSubIdx (p : List Char) : List Char → Option Nat
  | [] => if List.isPrefixOf p [] then some 0 else none
  | c :: t =>
    if List.isPrefixOf p (c :: t) then some 0
    else (findSubIdx p t).map (· + 1)

/-- The lookahead `(?=NEXT STEPS:|CONTINUE:)`. -/
def stopHeader (l : List Char) : Bool :=
  List.isPrefixOf "NEXT STEPS:".toList l || List.isPrefixOf "CONTINUE:".toList l

/-- How many characters the lazy `[\s\S]*?` consumes before the lookahead
(or the end of input, the `$` alternative) succeeds. -/
def lazyStop : List Char → Nat
  | [] => 0
  | c :: t => if stopHeader (c :: t) then 0 else lazyStop t + 1

/-- `text.match(regex)?.[0]` for the section regex. -/
def matchRegion (text sect : String) : Option (List Char) :=
  match findSubIdx (sect ++ ":").toList text.toList with
  | none => none
  | some i =>
    some ((text.toList.drop i).take
      ((sect ++ ":").toList.length +
        lazyStop ((text.toList.drop i).drop (sect ++ ":").toList.length)))

/-- JS `str.split('\n')`. -/
def splitOnNl : List Char → List (List Char)
  | [] => [[]]
  | c :: t =>
    if c = '\n' then [] :: splitOnNl t
    else
      match splitOnNl t with
      | [] => [[c]]
      | h :: rest => (c :: h) :: rest

/-- The characters JS `String.prototype.trim` strips (ASCII portion). -/
def isWsChar (c : Char) : Bool :=
  c = ' ' || c = '\t' || c = '\n' || c = '\r' || c = '\x0b' || c = '\x0c'

/-- JS `str.trim()`. -/
def trimChars (l : List Char) : List Char :=
  ((l.dropWhile isWsChar).reverse.dropWhile isWsChar).reverse

/-- `PlanningEngine.extractSection`:
`match[0].split('\n').filter(l => l.trim().startsWith('-')).map(l => l.trim().substring(2))`. -/
def extractSection (text sect : String) : List String :=
  match matchRegion text sect with
  | none => []
  | some m =>
    ((splitOnNl m).filter (fun line => List.isPrefixOf ['-'] (trimChars line))).map
      (fun line => ((trimChars line).drop 2).asString)

/-! ### State fingerprint (`DolosAgent.computeStateHash` / `hasStateChanged`)

`computeStateHash` is `JSON.stringify` applied to
`{url, title, elementCount, elements: first 20 elements as {tag, text?.substring(0,50), x, y}}`.
The `JSON.stringify` serializer is embedded exactly: keys in insertion order,
strings quoted with the ECMA-404 escaping `stringify` performs (`"`, `\`,
backspace, tab, newline, form feed, carriage return, and `\u00xx` for the
remaining control characters), numbers in decimal, and object properties whose
value is `undefined` omitted (the `text` key). -/

/-- The projection of a snapshot that the fingerprint is built from. -/
structure HashedElement where
  tag : String
  text : Option String
  x : Int
  y : Int
deriving DecidableEq

structure StateHashData where
  url : String
  title : String
  elementCount : Nat
  elements : List HashedElement
deriving DecidableEq

def stateHashData (o : BrowserState) : StateHashData :=
  { url := o.url
    title := o.title
    elementCount := o.elements.length
    elements := (o.elements.take 20).map fun e =>
      { tag := e.tag, text := e.text.map (fun t => t.take 50), x := e.x, y := e.y } }

/-- Lower-case hex digit, as produced by `Number.prototype.toString(16)`. -/
def hexDigitChar (n : Nat) : Char :=
  Char.ofNat (if n < 10 then 48 + n else 87 + n)

/-- How `JSON.stringify` escapes one character inside a string literal. -/
def escChar (c : Char) : List Char :=
  if c = '"' then ['\\', '"']
  else if c = '\\' then ['\\', '\\']
  else if c = '\x08' then ['\\', 'b']
  else if c = '\x09' then ['\\', 't']
  else if c = '\x0a' then ['\\', 'n']
  else if c = '\x0c' then ['\\', 'f']
  else if c = '\x0d' then ['\\', 'r']
  else if c.toNat < 32 then
    ['\\', 'u', '0', '0', hexDigitChar (c.toNat / 16), hexDigitChar (c.toNat % 16)]
  else [c]

/-- A JSON string literal: `"` + escaped body + `"`. -/
def quoteJson (s : String) : List Char :=
  '"' :: (s.toList.flatMap escChar ++ ['"'])

def digitChar (n : Nat) : Char := Char.ofNat (48 + n)

/-- Decimal digits of `n`, most significant first, by fueled division. -/
def natRenderAux : Nat → Nat → List Char
  | 0, _ => []
  | fuel + 1, n => if n = 0 then [] else natRenderAux fuel (n / 10) ++ [digitChar (n % 10)]

/-- Decimal rendering of a natural number. -/
def natRender (n : Nat) : List Char :=
  if n = 0 then ['0'] else natRenderAux n n

/-- Decimal rendering of an integer (JS number formatting for integers). -/
def intRender (i : Int) : List Char :=
  if i < 0 then '-' :: natRender i.natAbs else natRender i.natAbs

def litUrl : List Char := ['\x7b', '"', 'u', 'r', 'l', '"', ':']
def litTitle : List Char := [',', '"', 't', 'i', 't', 'l', 'e', '"', ':']
def litElementCount : List Char :=
  [',', '"', 'e', 'l', 'e', 'm', 'e', 'n', 't', 'C', 'o', 'u', 'n', 't', '"', ':']
def litElements : List Char :=
  [',', '"', 'e', 'l', 'e', 'm', 'e', 'n', 't', 's', '"', ':', '[']
def litTag : List Char := ['\x7b', '"', 't', 'a', 'g', '"', ':']
def litText : List Char := [',', '"', 't', 'e', 'x', 't', '"', ':']
def litX : List Char := [',', '"', 'x', '"', ':']
def litY : List Char := [',', '"', 'y', '"', ':']

/-- `JSON.stringify` of one projected element, `text` omitted when absent. -/
def renderHashedElement (e : HashedElement) : List Char :=
  litTag ++ quoteJson e.tag ++
    (match e.text with
     | some t => litText ++ quoteJson t
     | none => []) ++
    litX ++ intRender e.x ++ litY ++ intRender e.y ++ ['\x7d']

/-- Array elements joined by commas. -/
def renderElementList : List HashedElement → List Char
  | [] => []
  | [e] => renderHashedElement e
  | e :: e2 :: rest => renderHashedElement e ++ ',' :: renderElementList (e2 :: rest)

/-- `JSON.stringify(stateData)`. -/
def renderStateHashData (d : StateHashData) : List Char :=
  litUrl ++ quoteJson d.url ++ litTitle ++ quoteJson d.title ++
    litElementCount ++ natRender d.elementCount ++
    litElements ++ renderElementList d.elements ++ [']', '\x7d']

/-- `DolosAgent.computeStateHash`. -/
def computeStateHash (o : BrowserState) : String :=
  (renderStateHashData (stateHashData o)).asString

/-- Value of a lower-case hexadecimal digit (decoder support for proving the
serializer unambiguous). -/
def hexVal (c : Char) : Nat :=
  if 48 ≤ c.toNat ∧ c.toNat ≤ 57 then c.toNat - 48
  else if 97 ≤ c.toNat ∧ c.toNat ≤ 102 then c.toNat - 87
  else 0

/-- Decoder for the body of a JSON string literal: consumes characters up to
the closing quote, undoing `escChar`, and returns the decoded body plus the
rest of the input.  A left inverse of the serializer, used to prove the
fingerprint unambiguous. -/
def parseStrBody : List Char → Option (List Char × List Char)
  | [] => none
  | c :: rest =>
    if c = '"' then some ([], rest)
    else if c = '\\' then
      match rest with
      | [] => none
      | e :: rest2 =>
        if e = '"' then (parseStrBody rest2).map (fun p => ('"' :: p.1, p.2))
        else if e = '\\' then (parseStrBody rest2).map (fun p => ('\\' :: p.1, p.2))
        else if e = 'b' then (parseStrBody rest2).map (fun p => ('\x08' :: p.1, p.2))
        else if e = 't' then (parseStrBody rest2).map (fun p => ('\x09' :: p.1, p.2))
        else if e = 'n' then (parseStrBody rest2).map (fun p => ('\x0a' :: p.1, p.2))
        else if e = 'f' then (parseStrBody rest2).map (fun p => ('\x0c' :: p.1, p.2))
        else if e = 'r' then (parseStrBody rest2).map (fun p => ('\x0d' :: p.1, p.2))
        else if e = 'u' then
          match rest2 with
          | h1 :: h2 :: h3 :: h4 :: rest6 =>
            (parseStrBody rest6).map (fun p =>
              (Char.ofNat
                (((hexVal h1 * 16 + hexVal h2) * 16 + hexVal h3) * 16 + hexVal h4)
                :: p.1, p.2))
          | _ => none
        else none
    else (parseStrBody rest).map (fun p => (c :: p.1, p.2))

/-- ASCII decimal digit test. -/
def isDigitC (c : Char) : Bool :=
  decide (48 ≤ c.toNat) && decide (c.toNat ≤ 57)

/-- The first character of the list, if any, fails the predicate. -/
def headNot (p : Char → Bool) (t : List Char) : Prop :=
  ∀ c, t.head? = some c → p c = false

/-- `DolosAgent.hasStateChanged`: compares against the held fingerprint and
replaces it; returns the change flag and the new held fingerprint. -/
def hasStateChanged (lastStateHash : Option String) (o : BrowserState) :
    Bool × Option String :=
  let currentHash := computeStateHash o
  (decide (¬ lastStateHash = some currentHash), some currentHash)

/-! ### Result-capture bridge (`DolosAgent.wrapToolWithResultCapture`)

`lastToolResults` is a `Map<string, string>`; only `get`, `set` and `delete`
are used, so the map is modelled as a lookup function. -/

abbrev ToolResultStore := String → Option String

def emptyStore : ToolResultStore := fun _ => none

def storeSet (m : ToolResultStore) (k v : String) : ToolResultStore :=
  fun q => if q = k then some v else m q

def storeDelete (m : ToolResultStore) (k : String) : ToolResultStore :=
  fun q => if q = k then none else m q

/-- The wrapped `execute`: run the original, record the return value under the
tool's name, and pass the value through.  Modelled with explicit state
passing: the pair is (returned value, map after the call). -/
def wrapToolWithResultCapture (originalExecute : α → String) (toolName : String)
    (args : α) (lastToolResults : ToolResultStore) : String × ToolResultStore :=
  let result := originalExecute args
  (result, storeSet lastToolResults toolName result)

/-- How `run()` reads a captured result:
`this.lastToolResults.get(toolCall.toolName) || `​`${toolCall.toolName} executed`​`. -/
def readCapturedResult (m : ToolResultStore) (toolName : String) : String :=
  jsOr (m toolName) (toolName ++ " executed")

/-- The result string of the repository's `click` tool, the capability used by
the claims' scenarios; every registered tool returns a non-empty template
string of this kind. -/
def clickToolResult (x y : Int) : String :=
  "Clicked at coordinates (" ++ toString x ++ ", " ++ toString y ++ ")"

/-! ### Orchestration loop (`DolosAgent.run`, two-phase variant)

The externally-latent collaborators (observation capture, the planning model
call, the vision model call, the logic model call, and the tool executions the
AI SDK performs during the logic call) are modelled as an environment indexed
by the step counter: iteration `n` of the while loop consumes `env n`.  Any
execution trace of the real loop corresponds to some environment, so
properties quantified over all environments cover all runs. -/

structure Usage where
  inputTokens : Nat
  outputTokens : Nat
  totalTokens : Nat
deriving DecidableEq

def Usage.add (a b : Usage) : Usage :=
  { inputTokens := a.inputTokens + b.inputTokens
    outputTokens := a.outputTokens + b.outputTokens
    totalTokens := a.totalTokens + b.totalTokens }

/-- Componentwise order on usage counters. -/
def Usage.le (a b : Usage) : Prop :=
  a.inputTokens ≤ b.inputTokens ∧ a.outputTokens ≤ b.outputTokens ∧
    a.totalTokens ≤ b.totalTokens

def zeroUsage : Usage := { inputTokens := 0, outputTokens := 0, totalTokens := 0 }

/-- One model-issued tool call. -/
structure ToolCall where
  toolName : String
  args : Params
deriving DecidableEq

/-- The `generate` result shape (§6 of the spec): `result.text` is the empty
string when absent, mirroring `result.text || ''` in the source. -/
structure GenResult where
  text : String
  toolCalls : List ToolCall
  finishReason : String
  usage : Usage
deriving DecidableEq

/-- What the outside world supplies to one iteration of the while loop. -/
structure StepEnv where
  observation : BrowserState
  planningText : String
  planningUsage : Usage
  visionText : String
  visionUsage : Usage
  logic : GenResult
  toolWrites : List (String × String)

structure AgentConfig where
  maxSteps : Nat
  planningInterval : Nat

structure AgentState where
  stepCount : Nat
  memory : Memory
  totalUsage : Usage
  logicUsage : Usage
  visionUsage : Usage
  lastStateHash : Option String
  lastToolResults : ToolResultStore

/-- The captures the AI SDK's tool executions perform during the logic call:
each executed wrapped tool sets its name to its result, in execution order. -/
def applyToolWrites (writes : List (String × String)) (m : ToolResultStore) :
    ToolResultStore :=
  writes.foldl (fun acc w => storeSet acc w.fst w.snd) m

/-- `toolCall.args.result || 'Task completed'` for the `done` tool. -/
def doneAnswer (args : Params) : String :=
  match lookupParam args "result" with
  | some (.s s) => if s = "" then "Task completed" else s
  | some (.n v) => if v = 0 then "Task completed" else toString v
  | none => "Task completed"

/-- The `for (const toolCall of result.toolCalls)` body: a `done` call captures
the final answer and stops mid-batch; any other call is recorded as a
successful action with its captured result, which is then cleared. -/
def processToolCalls (stepNumber : Nat) (reasoning : String)
    (observation : BrowserState) :
    List ToolCall → Memory → ToolResultStore → Memory × ToolResultStore × Option String
  | [], mem, store => (mem, store, none)
  | tc :: rest, mem, store =>
    if tc.toolName = "done" then (mem, store, some (doneAnswer tc.args))
    else
      let toolResult := readCapturedResult store tc.toolName
      let mem2 := mem.addActionStep
        { stepNumber := stepNumber
          toolName := tc.toolName
          parameters := tc.args
          reasoning := reasoning
          observation := some observation
          result := some { success := true, observation := some toolResult } }
      processToolCalls stepNumber reasoning observation rest mem2
        (storeDelete store tc.toolName)

/-- Ghost record of one iteration, for stating temporal properties. -/
structure IterRecord where
  step : Nat
  obsHash : String
  stateChanged : Bool
  warned : Bool
  totalAfter : Usage
  logicAfter : Usage
  visionAfter : Usage
deriving DecidableEq

/-- One iteration of the `while` loop in `DolosAgent.run` (two-phase variant):
increment the step counter, observe, detect state change, run the planning
phase on the configured interval (its usage folds into the logic and total
counters), consult the loop detector (advisory), run the vision phase (usage
into vision and total), run the logic decision (usage into logic and total),
then either finish on `finishReason === 'stop' && text`, or execute the
returned tool calls. -/
def runStep (env : Nat → StepEnv) (cfg : AgentConfig) (s : AgentState) :
    AgentState × IterRecord × Option String :=
  let n := s.stepCount + 1
  let e := env n
  let observation := e.observation
  let changed := hasStateChanged s.lastStateHash observation
  let stateChanged := changed.fst
  let warned := !stateChanged && decide (n > 1)
  let planned :=
    if n % cfg.planningInterval = 0 then
      (s.memory.addPlanningStep n (extractSection e.planningText "FACTS")
          (extractSection e.planningText "NEXT STEPS"),
        s.logicUsage.add e.planningUsage, s.totalUsage.add e.planningUsage)
    else (s.memory, s.logicUsage, s.totalUsage)
  let mem1 := planned.1
  let _loopCheck := detectLoop (mem1.getRecentActions 5)
  let mem2 := mem1.addVisionAnalysisStep n e.visionText observation
  let vision2 := s.visionUsage.add e.visionUsage
  let logic2 := planned.2.1.add e.logic.usage
  let total3 := (planned.2.2.add e.visionUsage).add e.logic.usage
  let store1 := applyToolWrites e.toolWrites s.lastToolResults
  let record : IterRecord :=
    { step := n
      obsHash := computeStateHash observation
      stateChanged := stateChanged
      warned := warned
      totalAfter := total3
      logicAfter := logic2
      visionAfter := vision2 }
  if e.logic.finishReason = "stop" ∧ e.logic.text ≠ "" then
    ({ stepCount := n, memory := mem2, totalUsage := total3, logicUsage := logic2,
       visionUsage := vision2, lastStateHash := changed.snd, lastToolResults := store1 },
     record, some e.logic.text)
  else
    let processed := processToolCalls n e.logic.text observation e.logic.toolCalls mem2 store1
    ({ stepCount := n, memory := processed.1, totalUsage := total3, logicUsage := logic2,
       visionUsage := vision2, lastStateHash := changed.snd,
       lastToolResults := processed.2.1 },
     record, processed.2.2)

/-- The `while (!finalAnswer && this.stepCount < this.config.maxSteps)` loop;
`fuel` is an upper bound on the remaining iterations (the guard on
`stepCount` is the binding condition). -/
def runLoop (env : Nat → StepEnv) (cfg : AgentConfig) :
    Nat → AgentState → AgentState × List IterRecord × Option String
  | 0, s => (s, [], none)
  | fuel + 1, s =>
    if s.stepCount < cfg.maxSteps then
      match runStep env cfg s with
      | (s1, it, some a) => (s1, [it], some a)
      | (s1, it, none) =>
        let r := runLoop env cfg fuel s1
        (r.1, it :: r.2.1, r.2.2)
    else (s, [], none)

/-- The agent state at the top of `run()`: fresh memory holding the task step,
step counter 0, zeroed counters, no held fingerprint, empty capture map. -/
def initialState (task : String) : AgentState :=
  { stepCount := 0
    memory := (Memory.create none).addTaskStep task
    totalUsage := zeroUsage
    logicUsage := zeroUsage
    visionUsage := zeroUsage
    lastStateHash := none
    lastToolResults := emptyStore }

/-- `DolosAgent.run`: the loop plus the synthetic
`Task incomplete after N steps` answer when the budget is exhausted.
Returns (final state, per-iteration trace, final answer). -/
def run (env : Nat → StepEnv) (cfg : AgentConfig) (task : String) :
    AgentState × List IterRecord × String :=
  let r := runLoop env cfg cfg.maxSteps (initialState task)
  (r.1, r.2.1,
    match r.2.2 with
    | some a => a
    | none => "Task incomplete after " ++ toString cfg.maxSteps ++ " steps")

/-- Number of iterations the loop body executed in a run. -/
def runTraceLen (env : Nat → StepEnv) (cfg : AgentConfig) (task : String) : Nat :=
  (run env cfg task).2.1.length

def runAnswer (env : Nat → StepEnv) (cfg : AgentConfig) (task : String) : String :=
  (run env cfg task).2.2

/-- Exit condition the code actually tests before executing tool calls:
`result.finishReason === 'stop' && result.text`. -/
abbrev stopExitAt (env : Nat → StepEnv) (n : Nat) : Prop :=
  (env n).logic.finishReason = "stop" ∧ (env n).logic.text ≠ ""

/-- A `done` tool call occurs somewhere in the returned batch. -/
abbrev doneExitAt (env : Nat → StepEnv) (n : Nat) : Prop :=
  ∃ tc ∈ (env n).logic.toolCalls, tc.toolName = "done"

/-- Iteration `n` ends the run. -/
abbrev exitAt (env : Nat → StepEnv) (n : Nat) : Prop :=
  stopExitAt env n ∨ doneExitAt env n

/-- The answer produced by an exiting iteration. -/
def exitAnswerAt (env : Nat → StepEnv) (n : Nat) : String :=
  if (env n).logic.finishReason = "stop" ∧ (env n).logic.text ≠ "" then
    (env n).logic.text
  else
    match (env n).logic.toolCalls.find? (fun tc => tc.toolName == "done") with
    | some tc => doneAnswer tc.args
    | none => ""

/-- Exit case (1) exactly as the claim under scrutiny words it: finish reason
`stop` together with free text and **no tool calls**. -/
abbrev stopNoToolsExitAt (env : Nat → StepEnv) (n : Nat) : Prop :=
  (env n).logic.finishReason = "stop" ∧ (env n).logic.text ≠ "" ∧
    (env n).logic.toolCalls = []

/-- `needle` occurs as a substring of `hay`. -/
abbrev containsSub (needle hay : String) : Prop :=
  (findSubIdx needle.toList hay.toList).isSome = true

/-- Case (3) of the claim under scrutiny: if no step satisfies the claimed
exit conditions (1) or (2), the loop body executes exactly `maxSteps` times
and the answer contains `incomplete after N steps`. -/
def claimC1Case3 (env : Nat → StepEnv) (cfg : AgentConfig) (task : String) : Prop :=
  (∀ j, 1 ≤ j → j ≤ cfg.maxSteps → ¬ (stopNoToolsExitAt env j ∨ doneExitAt env j)) →
    runTraceLen env cfg task = cfg.maxSteps ∧
      containsSub ("incomplete after " ++ toString cfg.maxSteps ++ " steps")
        (runAnswer env cfg task)

/-- No action history entry ever carries a failed result. -/
def memoryAllSucc (m : Memory) : Prop :=
  ∀ a ∈ m.actions, ∃ r, a.result = some r ∧ r.success = true

/-- Componentwise order on an iteration record's three counters. -/
def recLe (a b : IterRecord) : Prop :=
  Usage.le a.totalAfter b.totalAfter ∧ Usage.le a.logicAfter b.logicAfter ∧
    Usage.le a.visionAfter b.visionAfter

/-- The three counters of a state are below those of a record. -/
def stateLeRec (s : AgentState) (b : IterRecord) : Prop :=
  Usage.le s.totalUsage b.totalAfter ∧ Usage.le s.logicUsage b.logicAfter ∧
    Usage.le s.visionUsage b.visionAfter

/-! ### Concrete scenario inputs used by the testable properties -/

/-- A minimal snapshot for concrete runs. -/
def emptyBrowserState : BrowserState :=
  { url := "", title := "", screenshot := "", elements := []
    viewportSize := { width := 1280, height := 720 } }

/-- A step environment that supplies a given decision and nothing else. -/
def quietStepEnv (g : GenResult) : StepEnv :=
  { observation := emptyBrowserState
    planningText := ""
    planningUsage := zeroUsage
    visionText := ""
    visionUsage := zeroUsage
    logic := g
    toolWrites := [] }

/-- An environment whose model always answers finish reason `stop` with free
text `"T"` *and* a `click` tool call. -/
def c1CexEnv : Nat → StepEnv := fun _ =>
  quietStepEnv
    { text := "T"
      toolCalls := [{ toolName := "click", args := [("x", .n 1), ("y", .n 2)] }]
      finishReason := "stop"
      usage := zeroUsage }

/-- An environment that clicks on step 1 and calls `done(result="X")` on
step 2. -/
def c1DoneEnv : Nat → StepEnv := fun n =>
  if n = 2 then
    quietStepEnv
      { text := ""
        toolCalls := [{ toolName := "done", args := [("result", .s "X")] }]
        finishReason := "tool-calls"
        usage := zeroUsage }
  else
    quietStepEnv
      { text := ""
        toolCalls := [{ toolName := "click", args := [("x", .n 1), ("y", .n 2)] }]
        finishReason := "tool-calls"
        usage := zeroUsage }

/-- An environment whose model always issues one `click` tool call and whose
logic call costs 1/2/3 tokens. -/
def c1ClickEnv : Nat → StepEnv := fun _ =>
  quietStepEnv
    { text := ""
      toolCalls := [{ toolName := "click", args := [("x", .n 1), ("y", .n 2)] }]
      finishReason := "tool-calls"
      usage := { inputTokens := 1, outputTokens := 2, totalTokens := 3 } }

/-- The iteration record produced by step 1 of a run under `c1ClickEnv`. -/
def c8Record : IterRecord :=
  { step := 1
    obsHash := "\x7b\"url\":\"\",\"title\":\"\",\"elementCount\":0,\"elements\":[]\x7d"
    stateChanged := true
    warned := false
    totalAfter := { inputTokens := 1, outputTokens := 2, totalTokens := 3 }
    logicAfter := { inputTokens := 1, outputTokens := 2, totalTokens := 3 }
    visionAfter := zeroUsage }

/-- A successful `click {x:1, y:2}` action whose captured result is `Clicked`. -/
def c2ClickOk : ActionStep :=
  { stepNumber := 1
    toolName := "click"
    parameters := [("x", .n 1), ("y", .n 2)]
    reasoning := ""
    result := some { success := true, observation := some "Clicked" } }

/-- A failed action (`result.success` false). -/
def c2ClickFail : ActionStep :=
  { stepNumber := 2
    toolName := "click"
    parameters := [("x", .n 3), ("y", .n 4)]
    reasoning := ""
    result := some { success := false, error := some "boom" } }

/-- A click action at given coordinates, as recorded in history. -/
def c4Click (n : Nat) (x y : Int) : ActionStep :=
  { stepNumber := n
    toolName := "click"
    parameters := [("x", .n x), ("y", .n y)]
    reasoning := ""
    result := some { success := true, observation := some "Clicked" } }

/-- A dissimilar action (different tool). -/
def c4Scroll : ActionStep :=
  { stepNumber := 4
    toolName := "scroll"
    parameters := [("direction", .s "down")]
    reasoning := ""
    result := some { success := true, observation := some "Scrolled" } }

/-! ## Theorems -/

/-- `stepsToMessages` distributes over append. -/
theorem stepsToMessages_append (l1 l2 : List MemoryStep) :
    stepsToMessages (l1 ++ l2) = stepsToMessages l1 ++ stepsToMessages l2 := by
  induction l1 with
  | nil => rfl
  | cons hd t ih =>
    cases hd with
    | task t0 => simp [stepsToMessages, ih]
    | planning a b c => simp [stepsToMessages, ih]
    | visionAnalysis a b c => simp [stepsToMessages, ih]
    | action a =>
      cases h : a.result with
      | none => simp [stepsToMessages, h, ih]
      | some r =>
        by_cases hs : r.success <;> simp [stepsToMessages, h, hs, ih]

/-- An action step that is absent a result, or whose result is unsuccessful,
contributes no messages. -/
theorem stepsToMessages_failed_action (a : ActionStep)
    (h : a.result = none ∨ ∃ r, a.result = some r ∧ r.success = false) :
    stepsToMessages [MemoryStep.action a] = [] := by
  rcases h with h | ⟨r, hr, hs⟩
  · simp [stepsToMessages, h]
  · simp [stepsToMessages, hr, hs]

/-- **C2.** Replaying a fresh memory holding a Task step `"T"`, a successful
`click {x:1,y:2}` action observed as `"Clicked"`, and a failed action yields
exactly the three messages user/assistant-tool-call/tool-result; the result
string falls back to structured data and then the literal `"Success"` when the
observation string is absent; and in general an action step without
`result.success` contributes zero messages wherever it sits in the log. -/
theorem memory_toMessages_replay :
    ((((Memory.create none).addTaskStep "T").addActionStep c2ClickOk).addActionStep
        c2ClickFail).toMessages =
      [Message.user "T",
       Message.assistantToolCall "click-1" "click" [("x", .n 1), ("y", .n 2)],
       Message.toolResult "click-1" "click" "Clicked"] ∧
    chooseResultText { success := true, data := some "D" } = "D" ∧
    chooseResultText { success := true } = "Success" ∧
    (∀ pre post (a : ActionStep),
      (a.result = none ∨ ∃ r, a.result = some r ∧ r.success = false) →
      stepsToMessages (pre ++ MemoryStep.action a :: post) =
        stepsToMessages (pre ++ post)) := by
  refine ⟨by decide, by decide, by decide, ?_⟩
  intro pre post a h
  have h1 : pre ++ MemoryStep.action a :: post = (pre ++ [MemoryStep.action a]) ++ post := by
    simp
  rw [h1, stepsToMessages_append, stepsToMessages_append,
    stepsToMessages_failed_action a h, List.append_nil, ← stepsToMessages_append]

/-- Witness for C2: the general clause applied to the concrete failed action. -/
theorem memory_toMessages_replay_witness :
    stepsToMessages ([MemoryStep.task "T"] ++ MemoryStep.action c2ClickFail :: []) =
      stepsToMessages ([MemoryStep.task "T"] ++ []) :=
  memory_toMessages_replay.2.2.2 [MemoryStep.task "T"] [] c2ClickFail
    (Or.inr ⟨_, rfl, rfl⟩)

/-- **C3.** The wrapped `execute` is pass-through (returns exactly the original
implementation's value), its only effect is recording that value under the
tool's name; invoking the same wrapped capability twice with two different
non-empty outcomes and then reading the captured value yields only the second
outcome; and reading a name with no captured entry yields the
`<tool> executed` fallback. -/
theorem wrapTool_result_capture :
    (∀ (α : Type) (orig : α → String) name args m,
      (wrapToolWithResultCapture orig name args m).1 = orig args) ∧
    (∀ (α : Type) (orig : α → String) name args m,
      (wrapToolWithResultCapture orig name args m).2 = storeSet m name (orig args)) ∧
    (∀ (α β : Type) (orig1 : α → String) (orig2 : β → String) name a1 a2 m,
      orig1 a1 ≠ orig2 a2 →
      orig2 a2 ≠ "" →
      readCapturedResult
        (wrapToolWithResultCapture orig2 name a2
          (wrapToolWithResultCapture orig1 name a1 m).2).2 name = orig2 a2) ∧
    (∀ name (m : ToolResultStore), m name = none →
      readCapturedResult m name = name ++ " executed") := by
  refine ⟨fun α orig name args m => rfl, fun α orig name args m => rfl, ?_, ?_⟩
  · intro α β orig1 orig2 name a1 a2 m _ h2
    simp [wrapToolWithResultCapture, storeSet, readCapturedResult, jsOr, h2]
  · intro name m h
    simp [readCapturedResult, h, jsOr]

/-- Witness for C3: two `click` outcomes through the same wrapper slot; the
read returns the second. -/
theorem wrapTool_result_capture_witness :
    clickToolResult 100 100 ≠ clickToolResult 103 98 ∧
    clickToolResult 103 98 ≠ "" ∧
    readCapturedResult
      (wrapToolWithResultCapture (fun (_ : Unit) => clickToolResult 103 98) "click" ()
        (wrapToolWithResultCapture (fun (_ : Unit) => clickToolResult 100 100) "click" ()
          emptyStore).2).2 "click" = clickToolResult 103 98 :=
  ⟨by decide, by decide,
   wrapTool_result_capture.2.2.1 Unit Unit _ _ "click" () () emptyStore
     (by decide) (by decide)⟩

/-- **C4.** For three consecutive clicks at (100,100), (103,98), (105,101) and
then a dissimilar action, `detectLoop` over the growing recent-action list
reports looping exactly once: right after the third similar click (when the
similar count, self-comparison included, reaches 3), and neither before nor
after; the boundary of the similarity test is strict (a 10-pixel delta is not
similar, a 9-pixel delta is), and non-coordinate tools compare parameter maps
exactly. -/
theorem detectLoop_three_similar_clicks :
    (detectLoop [c4Click 1 100 100]).isLooping = false ∧
    (detectLoop [c4Click 1 100 100, c4Click 2 103 98]).isLooping = false ∧
    (detectLoop [c4Click 1 100 100, c4Click 2 103 98, c4Click 3 105 101]).isLooping = true ∧
    (detectLoop [c4Click 1 100 100, c4Click 2 103 98, c4Click 3 105 101]).message =
      some "LOOP DETECTED: Repeated click 3 times. Try a different approach!" ∧
    (detectLoop [c4Click 1 100 100, c4Click 2 103 98, c4Click 3 105 101, c4Scroll]).isLooping
      = false ∧
    actionsAreSimilar (c4Click 1 100 100) (c4Click 2 110 100) = false ∧
    actionsAreSimilar (c4Click 1 100 100) (c4Click 2 109 100) = true ∧
    actionsAreSimilar c4Scroll c4Scroll = true ∧
    actionsAreSimilar c4Scroll
      { c4Scroll with parameters := [("direction", .s "up")] } = false := by
  decide

/-- **C5.** Extracting the FACTS and NEXT STEPS sections from the canonical
planning reply yields `["a","b"]` and `["c"]`; when the section header is
absent the extracted list is empty, and when no bullet line occurs in the
matched region the extracted list is empty — extraction is a total function
and never raises. -/
theorem extractSection_sections :
    extractSection "FACTS:\n- a\n- b\nNEXT STEPS:\n- c\nCONTINUE: yes" "FACTS" = ["a", "b"] ∧
    extractSection "FACTS:\n- a\n- b\nNEXT STEPS:\n- c\nCONTINUE: yes" "NEXT STEPS" = ["c"] ∧
    (∀ text sect, ¬ containsSub (sect ++ ":") text → extractSection text sect = []) ∧
    (∀ text sect m, matchRegion text sect = some m →
      (∀ line ∈ splitOnNl m, List.isPrefixOf ['-'] (trimChars line) = false) →
      extractSection text sect = []) := by
  refine ⟨by decide, by decide, ?_, ?_⟩
  · intro text sect h
    have h2 : findSubIdx (sect ++ ":").toList text.toList = none := by
      cases h3 : findSubIdx (sect ++ ":").toList text.toList with
      | none => rfl
      | some i =>
        exact absurd
          (show (findSubIdx (sect ++ ":").toList text.toList).isSome = true by
            rw [h3]; rfl) h
    unfold extractSection matchRegion
    rw [h2]
  · intro text sect m hm hb
    have hf : (splitOnNl m).filter (fun line => List.isPrefixOf ['-'] (trimChars line)) = [] :=
      List.filter_eq_nil_iff.mpr (by intro a ha; simp [hb a ha])
    unfold extractSection
    rw [hm]
    simp [hf]

/-- Witness for C5: the header-absent and no-bullet clauses at concrete
inputs. -/
theorem extractSection_sections_witness :
    extractSection "no sections here" "FACTS" = [] ∧
    extractSection "FACTS: nothing bulleted\nCONTINUE: yes" "FACTS" = [] :=
  ⟨extractSection_sections.2.2.1 "no sections here" "FACTS" (by decide),
   extractSection_sections.2.2.2 "FACTS: nothing bulleted\nCONTINUE: yes" "FACTS"
     "FACTS: nothing bulleted\n".toList (by decide) (by decide)⟩

/-- **C9.** `clear()` empties the step log — `toMessages()` becomes the empty
list and `recentActions(n)` is empty for every `n` — while the system prompt
is exactly what it was before the call. -/
theorem memory_clear_frame (m : Memory) :
    (m.clear).toMessages = [] ∧
    (∀ n, (m.clear).getRecentActions n = []) ∧
    (m.clear).systemPrompt = m.systemPrompt := by
  refine ⟨rfl, ?_, rfl⟩
  intro n
  simp [Memory.clear, Memory.getRecentActions, Memory.actions, jsSliceLast]

/-! ### Facts about one loop iteration -/

theorem runStep_fst_stepCount (env : Nat → StepEnv) (cfg : AgentConfig) (s : AgentState) :
    (runStep env cfg s).1.stepCount = s.stepCount + 1 := by
  simp only [runStep]
  split <;> rfl

theorem runStep_fst_lastStateHash (env : Nat → StepEnv) (cfg : AgentConfig)
    (s : AgentState) :
    (runStep env cfg s).1.lastStateHash =
      some (computeStateHash (env (s.stepCount + 1)).observation) := by
  simp only [runStep]
  split <;> rfl

theorem runStep_record_step (env : Nat → StepEnv) (cfg : AgentConfig) (s : AgentState) :
    (runStep env cfg s).2.1.step = s.stepCount + 1 := by
  simp only [runStep]
  split <;> rfl

theorem runStep_record_obsHash (env : Nat → StepEnv) (cfg : AgentConfig) (s : AgentState) :
    (runStep env cfg s).2.1.obsHash =
      computeStateHash (env (s.stepCount + 1)).observation := by
  simp only [runStep]
  split <;> rfl

theorem runStep_record_stateChanged (env : Nat → StepEnv) (cfg : AgentConfig)
    (s : AgentState) :
    (runStep env cfg s).2.1.stateChanged =
      decide (¬ s.lastStateHash =
        some (computeStateHash (env (s.stepCount + 1)).observation)) := by
  simp only [runStep]
  split <;> rfl

theorem runStep_record_warned (env : Nat → StepEnv) (cfg : AgentConfig) (s : AgentState) :
    (runStep env cfg s).2.1.warned =
      (!(runStep env cfg s).2.1.stateChanged && decide ((runStep env cfg s).2.1.step > 1)) := by
  simp only [runStep]
  split <;> rfl

theorem processToolCalls_ans (n : Nat) (r : String) (o : BrowserState) :
    ∀ (l : List ToolCall) (mem : Memory) (store : ToolResultStore),
    (processToolCalls n r o l mem store).2.2 =
      (l.find? (fun tc => tc.toolName == "done")).map (fun tc => doneAnswer tc.args) := by
  intro l
  induction l with
  | nil => intro mem store; rfl
  | cons tc rest ih =>
    intro mem store
    by_cases hd : tc.toolName = "done"
    · simp [processToolCalls, hd, List.find?]
    · have hb : (tc.toolName == "done") = false := by simp [hd]
      simp [processToolCalls, hd, List.find?, hb, ih]

theorem runStep_ans_stop (env : Nat → StepEnv) (cfg : AgentConfig) (s : AgentState)
    (h : stopExitAt env (s.stepCount + 1)) :
    (runStep env cfg s).2.2 = some (env (s.stepCount + 1)).logic.text := by
  simp only [runStep]
  rw [if_pos h]

theorem runStep_ans_not_stop (env : Nat → StepEnv) (cfg : AgentConfig) (s : AgentState)
    (h : ¬ stopExitAt env (s.stepCount + 1)) :
    (runStep env cfg s).2.2 =
      ((env (s.stepCount + 1)).logic.toolCalls.find? (fun tc => tc.toolName == "done")).map
        (fun tc => doneAnswer tc.args) := by
  simp only [runStep]
  rw [if_neg h]
  exact processToolCalls_ans _ _ _ _ _ _

theorem runStep_ans_none (env : Nat → StepEnv) (cfg : AgentConfig) (s : AgentState)
    (h : ¬ exitAt env (s.stepCount + 1)) :
    (runStep env cfg s).2.2 = none := by
  have hstop : ¬ stopExitAt env (s.stepCount + 1) := fun hc => h (Or.inl hc)
  have hdone : ¬ doneExitAt env (s.stepCount + 1) := fun hc => h (Or.inr hc)
  rw [runStep_ans_not_stop env cfg s hstop]
  have hf : (env (s.stepCount + 1)).logic.toolCalls.find? (fun tc => tc.toolName == "done")
      = none := by
    rw [List.find?_eq_none]
    intro tc htc
    simp only [beq_iff_eq]
    intro hname
    exact hdone ⟨tc, htc, hname⟩
  rw [hf]
  rfl

theorem runStep_ans_exit (env : Nat → StepEnv) (cfg : AgentConfig) (s : AgentState)
    (h : exitAt env (s.stepCount + 1)) :
    (runStep env cfg s).2.2 = some (exitAnswerAt env (s.stepCount + 1)) := by
  by_cases hstop : stopExitAt env (s.stepCount + 1)
  · rw [runStep_ans_stop env cfg s hstop, exitAnswerAt, if_pos hstop]
  · have hdone : doneExitAt env (s.stepCount + 1) := h.resolve_left hstop
    rw [runStep_ans_not_stop env cfg s hstop, exitAnswerAt, if_neg hstop]
    obtain ⟨tc, htc, hname⟩ := hdone
    have : ((env (s.stepCount + 1)).logic.toolCalls.find?
        (fun tc => tc.toolName == "done")).isSome = true := by
      rw [List.find?_isSome]
      exact ⟨tc, htc, by simp [hname]⟩
    obtain ⟨tc0, htc0⟩ := Option.isSome_iff_exists.mp this
    rw [htc0]
    rfl

/-! ### Exit characterization of the while loop -/

theorem runLoop_no_exit (env : Nat → StepEnv) (cfg : AgentConfig) :
    ∀ (fuel : Nat) (s : AgentState),
    (∀ j, s.stepCount < j → j ≤ s.stepCount + fuel → ¬ exitAt env j) →
    s.stepCount + fuel ≤ cfg.maxSteps →
    (runLoop env cfg fuel s).2.1.length = fuel ∧ (runLoop env cfg fuel s).2.2 = none := by
  intro fuel
  induction fuel with
  | zero => intro s _ _; simp [runLoop]
  | succ f ih =>
    intro s h hle
    have hguard : s.stepCount < cfg.maxSteps := by omega
    have hans : (runStep env cfg s).2.2 = none :=
      runStep_ans_none env cfg s (h (s.stepCount + 1) (by omega) (by omega))
    have hsc := runStep_fst_stepCount env cfg s
    rcases hrs : runStep env cfg s with ⟨s1, it, ans⟩
    rw [hrs] at hans hsc
    simp only at hans hsc
    subst hans
    have ihr := ih s1 (by intro j h1 h2; exact h j (by omega) (by omega)) (by omega)
    simp only [runLoop, hrs, if_pos hguard]
    constructor
    · simp [ihr.1]
    · exact ihr.2

theorem runLoop_exit_first (env : Nat → StepEnv) (cfg : AgentConfig) :
    ∀ (fuel : Nat) (s : AgentState) (e : Nat),
    s.stepCount < e → e ≤ s.stepCount + fuel → e ≤ cfg.maxSteps →
    exitAt env e →
    (∀ j, s.stepCount < j → j < e → ¬ exitAt env j) →
    (runLoop env cfg fuel s).2.1.length = e - s.stepCount ∧
      (runLoop env cfg fuel s).2.2 = some (exitAnswerAt env e) := by
  intro fuel
  induction fuel with
  | zero => intro s e h1 h2 _ _ _; omega
  | succ f ih =>
    intro s e h1 h2 h3 hex hmin
    have hguard : s.stepCount < cfg.maxSteps := by omega
    have hsc := runStep_fst_stepCount env cfg s
    by_cases he : e = s.stepCount + 1
    · subst he
      have hans := runStep_ans_exit env cfg s hex
      rcases hrs : runStep env cfg s with ⟨s1, it, ans⟩
      rw [hrs] at hans
      simp only at hans
      subst hans
      simp only [runLoop, hrs, if_pos hguard]
      constructor
      · simp
      · trivial
    · have hnoexit : ¬ exitAt env (s.stepCount + 1) :=
        hmin (s.stepCount + 1) (by omega) (by omega)
      have hans := runStep_ans_none env cfg s hnoexit
      rcases hrs : runStep env cfg s with ⟨s1, it, ans⟩
      rw [hrs] at hans hsc
      simp only at hans hsc
      subst hans
      have ihr := ih s1 e (by omega) (by omega) h3 hex
        (by intro j hj1 hj2; exact hmin j (by omega) hj2)
      simp only [runLoop, hrs, if_pos hguard]
      constructor
      · simp only [List.length_cons, ihr.1]; omega
      · exact ihr.2

/-- **C1 (amended).** `run()` terminates through exactly one of three exits,
with the first two conditions as the code tests them: (1) at the first step
whose decision has finish reason `stop` with non-empty text, `run` returns
that text (whether or not tool calls are also present — they are skipped);
(2) otherwise, at the first step whose batch contains a `done` call, `run`
returns that call's `result` argument (or `Task completed` when it is absent
or empty) and stops mid-batch; (3) if no step up to `maxSteps` satisfies
either condition, the loop body executes exactly `maxSteps` times and `run`
returns `Task incomplete after <maxSteps> steps`. -/
theorem dolos_run_exit_trichotomy (env : Nat → StepEnv) (cfg : AgentConfig) (task : String) :
    (∀ e, 1 ≤ e → e ≤ cfg.maxSteps → exitAt env e →
      (∀ j, 1 ≤ j → j < e → ¬ exitAt env j) →
      runTraceLen env cfg task = e ∧ runAnswer env cfg task = exitAnswerAt env e) ∧
    ((∀ j, 1 ≤ j → j ≤ cfg.maxSteps → ¬ exitAt env j) →
      runTraceLen env cfg task = cfg.maxSteps ∧
        runAnswer env cfg task =
          "Task incomplete after " ++ toString cfg.maxSteps ++ " steps") := by
  have hsc : (initialState task).stepCount = 0 := rfl
  constructor
  · intro e he1 he2 hex hmin
    have h := runLoop_exit_first env cfg cfg.maxSteps (initialState task) e
      (by omega) (by omega) he2 hex (by intro j h1 h2; exact hmin j (by omega) h2)
    refine ⟨?_, ?_⟩
    · show (runLoop env cfg cfg.maxSteps (initialState task)).2.1.length = e
      omega
    · show (match (runLoop env cfg cfg.maxSteps (initialState task)).2.2 with
        | some a => a
        | none => "Task incomplete after " ++ toString cfg.maxSteps ++ " steps") =
          exitAnswerAt env e
      rw [h.2]
  · intro hno
    have h := runLoop_no_exit env cfg cfg.maxSteps (initialState task)
      (by intro j h1 h2; exact hno j (by omega) (by omega)) (by omega)
    refine ⟨?_, ?_⟩
    · show (runLoop env cfg cfg.maxSteps (initialState task)).2.1.length = cfg.maxSteps
      omega
    · show (match (runLoop env cfg cfg.maxSteps (initialState task)).2.2 with
        | some a => a
        | none => "Task incomplete after " ++ toString cfg.maxSteps ++ " steps") =
          "Task incomplete after " ++ toString cfg.maxSteps ++ " steps"
      rw [h.2]

/-- Witness for C1: in an environment that clicks on step 1 and calls
`done(result="X")` on step 2 with `maxSteps = 3`, the loop runs exactly twice
and answers `"X"`. -/
theorem dolos_run_exit_trichotomy_witness :
    runTraceLen c1DoneEnv { maxSteps := 3, planningInterval := 5 } "t" = 2 ∧
    runAnswer c1DoneEnv { maxSteps := 3, planningInterval := 5 } "t" = "X" := by
  have h := (dolos_run_exit_trichotomy c1DoneEnv { maxSteps := 3, planningInterval := 5 } "t").1
    2 (by decide) (by decide)
    (by right
        exact ⟨{ toolName := "done", args := [("result", .s "X")] }, by decide, by decide⟩)
    (by intro j h1 h2
        have hj : j = 1 := by omega
        subst hj
        decide)
  refine ⟨h.1, ?_⟩
  rw [h.2]
  decide

/-- **C1 counterexample.** The claim's case (3) — if no step returns `stop`
with text *and no tool calls*, and no step calls `done`, the loop executes
exactly `maxSteps` times and answers with the `incomplete` message — is false:
a model that answers finish reason `stop` with text `"T"` *and* a `click`
tool call satisfies the case-(3) antecedent, yet the run stops after one
iteration with answer `"T"`. -/
theorem dolos_run_exit_claim_cex :
    ¬ claimC1Case3 c1CexEnv { maxSteps := 3, planningInterval := 5 } "t" := by
  intro h
  have hante : ∀ j, 1 ≤ j → j ≤ 3 →
      ¬ (stopNoToolsExitAt c1CexEnv j ∨ doneExitAt c1CexEnv j) := by
    intro j _ _ hcon
    rcases hcon with ⟨_, _, hnil⟩ | ⟨tc, htc, hname⟩
    · exact absurd hnil (by simp [c1CexEnv, quietStepEnv])
    · have heq : tc = { toolName := "click", args := [("x", .n 1), ("y", .n 2)] } := by
        simpa [c1CexEnv, quietStepEnv] using htc
      rw [heq] at hname
      exact absurd hname (by decide)
  have h2 := h hante
  have hlen : runTraceLen c1CexEnv { maxSteps := 3, planningInterval := 5 } "t" = 1 := by
    have := (dolos_run_exit_trichotomy c1CexEnv
      { maxSteps := 3, planningInterval := 5 } "t").1 1 (by decide) (by decide)
      (by left; exact ⟨by decide, by decide⟩) (by intro j h1 h2; omega)
    exact this.1
  rw [hlen] at h2
  exact absurd h2.1 (by decide)

/-! ### Usage counter arithmetic -/

theorem usage_fold_plan (t lg vs p v l : Usage) (h : t = lg.add vs) :
    ((t.add p).add v).add l = ((lg.add p).add l).add (vs.add v) := by
  cases t; cases lg; cases vs; cases p; cases v; cases l
  simp [Usage.add, Usage.mk.injEq] at h ⊢
  omega

theorem usage_fold_noplan (t lg vs v l : Usage) (h : t = lg.add vs) :
    (t.add v).add l = (lg.add l).add (vs.add v) := by
  cases t; cases lg; cases vs; cases v; cases l
  simp [Usage.add, Usage.mk.injEq] at h ⊢
  omega

theorem usage_le_add1 (a b : Usage) : Usage.le a (a.add b) := by
  cases a; cases b
  simp [Usage.le, Usage.add]

theorem usage_le_add2 (a b c : Usage) : Usage.le a ((a.add b).add c) := by
  cases a; cases b; cases c
  simp only [Usage.le, Usage.add]
  omega

theorem usage_le_add3 (a b c d : Usage) : Usage.le a (((a.add b).add c).add d) := by
  cases a; cases b; cases c; cases d
  simp only [Usage.le, Usage.add]
  omega

theorem runStep_record_counters (env : Nat → StepEnv) (cfg : AgentConfig) (s : AgentState) :
    (runStep env cfg s).2.1.totalAfter = (runStep env cfg s).1.totalUsage ∧
    (runStep env cfg s).2.1.logicAfter = (runStep env cfg s).1.logicUsage ∧
    (runStep env cfg s).2.1.visionAfter = (runStep env cfg s).1.visionUsage := by
  simp only [runStep]
  split <;> exact ⟨rfl, rfl, rfl⟩

theorem runStep_sum (env : Nat → StepEnv) (cfg : AgentConfig) (s : AgentState)
    (h : s.totalUsage = s.logicUsage.add s.visionUsage) :
    (runStep env cfg s).1.totalUsage =
      (runStep env cfg s).1.logicUsage.add (runStep env cfg s).1.visionUsage := by
  simp only [runStep]
  split <;> split <;>
    first
    | exact usage_fold_plan _ _ _ _ _ _ h
    | exact usage_fold_noplan _ _ _ _ _ h

theorem runStep_mono (env : Nat → StepEnv) (cfg : AgentConfig) (s : AgentState) :
    Usage.le s.totalUsage (runStep env cfg s).1.totalUsage ∧
    Usage.le s.logicUsage (runStep env cfg s).1.logicUsage ∧
    Usage.le s.visionUsage (runStep env cfg s).1.visionUsage := by
  simp only [runStep]
  split <;> split <;>
    refine ⟨?_, ?_, ?_⟩ <;>
    first
    | exact usage_le_add3 _ _ _ _
    | exact usage_le_add2 _ _ _
    | exact usage_le_add1 _ _

/-- **C10 loop invariant.** Along the whole trace the combined counter is the
componentwise sum of the logic and vision counters, records are monotone, and
the head record dominates the entry state. -/
theorem runLoop_usage (env : Nat → StepEnv) (cfg : AgentConfig) :
    ∀ (fuel : Nat) (s : AgentState),
    s.totalUsage = s.logicUsage.add s.visionUsage →
    (∀ it ∈ (runLoop env cfg fuel s).2.1,
      it.totalAfter = it.logicAfter.add it.visionAfter) ∧
    List.Chain' recLe (runLoop env cfg fuel s).2.1 ∧
    (∀ it, (runLoop env cfg fuel s).2.1.head? = some it → stateLeRec s it) := by
  intro fuel
  induction fuel with
  | zero => intro s _; simp [runLoop]
  | succ f ih =>
    intro s h
    by_cases hguard : s.stepCount < cfg.maxSteps
    · have hsum := runStep_sum env cfg s h
      have hmono := runStep_mono env cfg s
      have hrc := runStep_record_counters env cfg s
      rcases hrs : runStep env cfg s with ⟨s1, it, ans⟩
      rw [hrs] at hsum hmono hrc
      simp only at hsum hmono hrc
      cases ans with
      | some a =>
        simp only [runLoop, hrs, if_pos hguard]
        refine ⟨?_, by simp, ?_⟩
        · intro it2 hit2
          have : it2 = it := by simpa using hit2
          subst this
          rw [hrc.1, hrc.2.1, hrc.2.2]
          exact hsum
        · intro it2 hh
          have heq : it2 = it := (by simpa using hh : it = it2).symm
          subst heq
          exact ⟨by rw [hrc.1]; exact hmono.1, by rw [hrc.2.1]; exact hmono.2.1,
            by rw [hrc.2.2]; exact hmono.2.2⟩
      | none =>
        have ihr := ih s1 hsum
        simp only [runLoop, hrs, if_pos hguard]
        refine ⟨?_, ?_, ?_⟩
        · intro it2 hit2
          rcases List.mem_cons.mp hit2 with h1 | h1
          · subst h1
            rw [hrc.1, hrc.2.1, hrc.2.2]
            exact hsum
          · exact ihr.1 it2 h1
        · rw [List.chain'_cons']
          refine ⟨?_, ihr.2.1⟩
          intro b hb
          have hsl := ihr.2.2 b (Option.mem_def.mp hb)
          exact ⟨by rw [hrc.1]; exact hsl.1, by rw [hrc.2.1]; exact hsl.2.1,
            by rw [hrc.2.2]; exact hsl.2.2⟩
        · intro it2 hh
          have heq : it2 = it := (by simpa using hh : it = it2).symm
          subst heq
          exact ⟨by rw [hrc.1]; exact hmono.1, by rw [hrc.2.1]; exact hmono.2.1,
            by rw [hrc.2.2]; exact hmono.2.2⟩
    · simp [runLoop, hguard]

/-- **C10.** Between any two steps of `run()`, the combined usage counter is
the componentwise sum of the logic and vision counters (every folded-in usage
amount — planning, the vision-analysis call, or the decision call — goes to
exactly one of logic/vision and simultaneously to the total), and no counter
ever decreases along the trace; the final state satisfies the same sum. -/
theorem dolos_run_usage_partition (env : Nat → StepEnv) (cfg : AgentConfig) (task : String) :
    (∀ it ∈ (run env cfg task).2.1,
      it.totalAfter = it.logicAfter.add it.visionAfter) ∧
    List.Chain' recLe (run env cfg task).2.1 ∧
    (run env cfg task).1.totalUsage =
      (run env cfg task).1.logicUsage.add (run env cfg task).1.visionUsage := by
  have h0 : (initialState task).totalUsage =
      (initialState task).logicUsage.add (initialState task).visionUsage := by
    simp [initialState, zeroUsage, Usage.add]
  have hfin : ∀ (fuel : Nat) (s : AgentState),
      s.totalUsage = s.logicUsage.add s.visionUsage →
      (runLoop env cfg fuel s).1.totalUsage =
        (runLoop env cfg fuel s).1.logicUsage.add (runLoop env cfg fuel s).1.visionUsage := by
    intro fuel
    induction fuel with
    | zero => intro s h; simpa [runLoop] using h
    | succ f ih =>
      intro s h
      by_cases hguard : s.stepCount < cfg.maxSteps
      · have hsum := runStep_sum env cfg s h
        rcases hrs : runStep env cfg s with ⟨s1, it, ans⟩
        rw [hrs] at hsum
        simp only at hsum
        cases ans with
        | some a => simpa [runLoop, hrs, hguard] using hsum
        | none =>
          have := ih s1 hsum
          simpa [runLoop, hrs, hguard] using this
      · simpa [runLoop, hguard] using h
  have hl := runLoop_usage env cfg cfg.maxSteps (initialState task) h0
  exact ⟨hl.1, hl.2.1, hfin cfg.maxSteps (initialState task) h0⟩

/-- Witness for C10: with a model that costs 1/2/3 tokens per logic call, the
final counters satisfy the partition. -/
theorem dolos_run_usage_partition_witness :
    (run c1ClickEnv { maxSteps := 1, planningInterval := 5 } "t").1.totalUsage =
      ((run c1ClickEnv { maxSteps := 1, planningInterval := 5 } "t").1.logicUsage).add
        ((run c1ClickEnv { maxSteps := 1, planningInterval := 5 } "t").1.visionUsage) :=
  (dolos_run_usage_partition c1ClickEnv { maxSteps := 1, planningInterval := 5 } "t").2.2

/-! ### State-change warning (C8) -/

theorem runLoop_warning_aux (env : Nat → StepEnv) (cfg : AgentConfig) :
    ∀ (fuel : Nat) (s : AgentState),
    (∀ it ∈ (runLoop env cfg fuel s).2.1,
      it.warned = (!it.stateChanged && decide (it.step > 1))) ∧
    List.Chain' (fun r1 r2 => r2.stateChanged = decide (¬ some r1.obsHash = some r2.obsHash))
      (runLoop env cfg fuel s).2.1 ∧
    (∀ it, (runLoop env cfg fuel s).2.1.head? = some it →
      it.step = s.stepCount + 1 ∧
      it.stateChanged = decide (¬ s.lastStateHash = some it.obsHash)) := by
  intro fuel
  induction fuel with
  | zero => intro s; simp [runLoop]
  | succ f ih =>
    intro s
    by_cases hguard : s.stepCount < cfg.maxSteps
    · have hw := runStep_record_warned env cfg s
      have hst := runStep_record_step env cfg s
      have hch := runStep_record_stateChanged env cfg s
      have hob := runStep_record_obsHash env cfg s
      have hlh := runStep_fst_lastStateHash env cfg s
      have hsc := runStep_fst_stepCount env cfg s
      rcases hrs : runStep env cfg s with ⟨s1, it, ans⟩
      rw [hrs] at hw hst hch hob hlh hsc
      simp only at hw hst hch hob hlh hsc
      cases ans with
      | some a =>
        simp only [runLoop, hrs, if_pos hguard]
        refine ⟨?_, by simp, ?_⟩
        · intro it2 hit2
          have heq : it2 = it := by simpa using hit2
          subst heq
          exact hw
        · intro it2 hh
          have heq : it2 = it := (by simpa using hh : it = it2).symm
          subst heq
          exact ⟨hst, by rw [hch, hob]⟩
      | none =>
        have ihr := ih s1
        simp only [runLoop, hrs, if_pos hguard]
        refine ⟨?_, ?_, ?_⟩
        · intro it2 hit2
          rcases List.mem_cons.mp hit2 with h1 | h1
          · subst h1; exact hw
          · exact ihr.1 it2 h1
        · rw [List.chain'_cons']
          refine ⟨?_, ihr.2.1⟩
          intro b hb
          have h3 := ihr.2.2 b (Option.mem_def.mp hb)
          rw [h3.2, hlh, hob]
        · intro it2 hh
          have heq : it2 = it := (by simpa using hh : it = it2).symm
          subst heq
          exact ⟨hst, by rw [hch, hob]⟩
    · simp [runLoop, hguard]

/-- **C8.** The "page may still be loading" warning is injected exactly when
the iteration's state is unchanged and the step counter exceeds 1; it is never
emitted on step 1; along the trace, an iteration reports "changed" exactly
when its fingerprint differs from the previous iteration's fingerprint; the
first iteration always reports "changed" (and hence never warns); and in
general the first `hasStateChanged` call after construction reports changed. -/
theorem dolos_warning_iff_unchanged (env : Nat → StepEnv) (cfg : AgentConfig) (task : String) :
    (∀ it ∈ (run env cfg task).2.1,
      (it.warned = true ↔ (it.stateChanged = false ∧ 1 < it.step))) ∧
    (∀ it ∈ (run env cfg task).2.1, it.step = 1 → it.warned = false) ∧
    List.Chain' (fun r1 r2 => (r2.stateChanged = true ↔ ¬ r2.obsHash = r1.obsHash))
      (run env cfg task).2.1 ∧
    (∀ it, ((run env cfg task).2.1.head? = some it) →
      it.step = 1 ∧ it.stateChanged = true ∧ it.warned = false) ∧
    (∀ o : BrowserState, (hasStateChanged none o).1 = true) := by
  have haux := runLoop_warning_aux env cfg cfg.maxSteps (initialState task)
  have hiff : ∀ it ∈ (run env cfg task).2.1,
      (it.warned = true ↔ (it.stateChanged = false ∧ 1 < it.step)) := by
    intro it hit
    rw [haux.1 it hit]
    cases hsc : it.stateChanged <;> simp [hsc]
  refine ⟨hiff, ?_, ?_, ?_, ?_⟩
  · intro it hit h1
    have := hiff it hit
    cases hw : it.warned
    · rfl
    · exact absurd ((this.mp hw).2) (by omega)
  · refine List.Chain'.imp ?_ haux.2.1
    intro a b hab
    rw [hab]
    simp only [decide_eq_true_eq, Option.some.injEq]
    exact ne_comm
  · intro it hh
    have h3 := haux.2.2 it hh
    have hstep : it.step = 1 := h3.1
    have hch : it.stateChanged = true := by
      rw [h3.2]
      simp [initialState]
    refine ⟨hstep, hch, ?_⟩
    have hmem : it ∈ (run env cfg task).2.1 := by
      have := List.mem_of_mem_head? (l := (run env cfg task).2.1) (a := it)
      exact this (Option.mem_def.mpr hh)
    rw [haux.1 it hmem, hch, hstep]
    rfl
  · intro o
    rfl

/-- Witness for C8: in a concrete one-step run the first (and only) record is
step 1, reports changed, and does not warn. -/
theorem dolos_warning_iff_unchanged_witness :
    c8Record.step = 1 ∧ c8Record.stateChanged = true ∧ c8Record.warned = false :=
  (dolos_warning_iff_unchanged c1ClickEnv { maxSteps := 1, planningInterval := 5 } "t").2.2.2.1
    c8Record (by decide)

/-! ### Success invariant of recorded actions (C7) -/

theorem actions_addActionStep (m : Memory) (a : ActionStep) :
    (m.addActionStep a).actions = m.actions ++ [a] := by
  simp [Memory.addActionStep, Memory.actions, MemoryStep.actionStep]

theorem actions_addPlanningStep (m : Memory) (n : Nat) (f ns : List String) :
    (m.addPlanningStep n f ns).actions = m.actions := by
  simp [Memory.addPlanningStep, Memory.actions, MemoryStep.actionStep]

theorem actions_addVisionAnalysisStep (m : Memory) (n : Nat) (a : String)
    (o : BrowserState) :
    (m.addVisionAnalysisStep n a o).actions = m.actions := by
  simp [Memory.addVisionAnalysisStep, Memory.actions, MemoryStep.actionStep]

theorem memoryAllSucc_addPlanningStep (m : Memory) (n : Nat) (f ns : List String)
    (h : memoryAllSucc m) : memoryAllSucc (m.addPlanningStep n f ns) := by
  intro a ha
  rw [actions_addPlanningStep] at ha
  exact h a ha

theorem memoryAllSucc_addVisionAnalysisStep (m : Memory) (n : Nat) (t : String)
    (o : BrowserState) (h : memoryAllSucc m) :
    memoryAllSucc (m.addVisionAnalysisStep n t o) := by
  intro a ha
  rw [actions_addVisionAnalysisStep] at ha
  exact h a ha

theorem processToolCalls_succ (n : Nat) (r : String) (o : BrowserState) :
    ∀ (l : List ToolCall) (mem : Memory) (store : ToolResultStore),
    memoryAllSucc mem → memoryAllSucc (processToolCalls n r o l mem store).1 := by
  intro l
  induction l with
  | nil => intro mem store h; exact h
  | cons tc rest ih =>
    intro mem store h
    by_cases hd : tc.toolName = "done"
    · simpa [processToolCalls, hd] using h
    · simp only [processToolCalls, if_neg hd]
      apply ih
      intro a ha
      rw [actions_addActionStep] at ha
      rcases List.mem_append.mp ha with h1 | h1
      · exact h a h1
      · have heq := List.mem_singleton.mp h1
        subst heq
        exact ⟨_, rfl, rfl⟩

theorem runStep_memory_succ (env : Nat → StepEnv) (cfg : AgentConfig) (s : AgentState)
    (h : memoryAllSucc s.memory) : memoryAllSucc (runStep env cfg s).1.memory := by
  simp only [runStep]
  split
  · apply memoryAllSucc_addVisionAnalysisStep
    split
    · exact memoryAllSucc_addPlanningStep _ _ _ _ h
    · exact h
  · apply processToolCalls_succ
    apply memoryAllSucc_addVisionAnalysisStep
    split
    · exact memoryAllSucc_addPlanningStep _ _ _ _ h
    · exact h

theorem runLoop_memory_succ (env : Nat → StepEnv) (cfg : AgentConfig) :
    ∀ (fuel : Nat) (s : AgentState),
    memoryAllSucc s.memory → memoryAllSucc (runLoop env cfg fuel s).1.memory := by
  intro fuel
  induction fuel with
  | zero => intro s h; simpa [runLoop] using h
  | succ f ih =>
    intro s h
    by_cases hguard : s.stepCount < cfg.maxSteps
    · have hstep := runStep_memory_succ env cfg s h
      rcases hrs : runStep env cfg s with ⟨s1, it, ans⟩
      rw [hrs] at hstep
      simp only at hstep
      cases ans with
      | some a => simpa [runLoop, hrs, hguard] using hstep
      | none =>
        have := ih s1 hstep
        simpa [runLoop, hrs, hguard] using this
    · simpa [runLoop, hguard] using h

/-- `toMessages` contributes one message per task step and two per action step
when every recorded action result is successful. -/
theorem stepsToMessages_length_of_succ :
    ∀ (l : List MemoryStep),
    (∀ a ∈ l.filterMap MemoryStep.actionStep, ∃ r, a.result = some r ∧ r.success = true) →
    (stepsToMessages l).length =
      (l.filter MemoryStep.isTask).length + 2 * (l.filterMap MemoryStep.actionStep).length := by
  intro l
  induction l with
  | nil => intro _; rfl
  | cons hd t ih =>
    intro h
    cases hd with
    | task t0 =>
      have := ih (by intro a ha; exact h a (by simpa [MemoryStep.actionStep] using ha))
      simp [stepsToMessages, MemoryStep.isTask, MemoryStep.actionStep, this]
      omega
    | planning a b c =>
      have := ih (by intro a2 ha; exact h a2 (by simpa [MemoryStep.actionStep] using ha))
      simp [stepsToMessages, MemoryStep.isTask, MemoryStep.actionStep, this]
    | visionAnalysis a b c =>
      have := ih (by intro a2 ha; exact h a2 (by simpa [MemoryStep.actionStep] using ha))
      simp [stepsToMessages, MemoryStep.isTask, MemoryStep.actionStep, this]
    | action a =>
      have hmem : a ∈ (MemoryStep.action a :: t).filterMap MemoryStep.actionStep := by
        simp [MemoryStep.actionStep]
      obtain ⟨r, hr, hs⟩ := h a hmem
      have := ih (by
        intro a2 ha
        exact h a2 (by simp [MemoryStep.actionStep]; right; simpa using ha))
      simp [stepsToMessages, MemoryStep.isTask, MemoryStep.actionStep, hr, hs, this]
      omega

/-- **C7.** Every action history entry appended by the orchestration loop
carries `result.success = true` — starting from the fresh task-only memory,
no reachable history state contains a failed action entry — and consequently
every recorded action is replayed by `toMessages()` (the reconstruction has
one message per task step plus two per action step). -/
theorem dolos_run_actions_successful (env : Nat → StepEnv) (cfg : AgentConfig)
    (task : String) :
    memoryAllSucc (run env cfg task).1.memory ∧
    ((run env cfg task).1.memory.toMessages).length =
      ((run env cfg task).1.memory.steps.filter MemoryStep.isTask).length +
        2 * ((run env cfg task).1.memory.actions).length := by
  have h0 : memoryAllSucc (initialState task).memory := by
    intro a ha
    simp [initialState, Memory.create, Memory.addTaskStep, Memory.actions,
      MemoryStep.actionStep] at ha
  have hsucc : memoryAllSucc (run env cfg task).1.memory :=
    runLoop_memory_succ env cfg cfg.maxSteps (initialState task) h0
  exact ⟨hsucc, stepsToMessages_length_of_succ _ hsucc⟩

/-- The action recorded by step 1 of a run under `c1ClickEnv`. -/
theorem dolos_run_actions_successful_witness :
    ∃ r, (ActionStep.result
      { stepNumber := 1, toolName := "click", parameters := [("x", .n 1), ("y", .n 2)],
        reasoning := "", observation := some emptyBrowserState,
        result := some { success := true, observation := some "click executed" } })
      = some r ∧ r.success = true :=
  (dolos_run_actions_successful c1ClickEnv { maxSteps := 1, planningInterval := 5 } "t").1
    { stepNumber := 1, toolName := "click", parameters := [("x", .n 1), ("y", .n 2)],
      reasoning := "", observation := some emptyBrowserState,
      result := some { success := true, observation := some "click executed" } }
    (by decide)

/-! ### Fingerprint injectivity (C6): string literals -/

theorem hexVal_hexDigitChar : ∀ n < 16, hexVal (hexDigitChar n) = n := by decide

theorem parseStrBody_quote (t : List Char) :
    parseStrBody ('"' :: t) = some ([], t) := by
  rw [parseStrBody.eq_def]; simp

theorem parseStrBody_escq (t : List Char) :
    parseStrBody ('\\' :: '"' :: t) =
      (parseStrBody t).map (fun p => ('"' :: p.1, p.2)) := by
  rw [parseStrBody.eq_def]; simp

theorem parseStrBody_escb (t : List Char) :
    parseStrBody ('\\' :: '\\' :: t) =
      (parseStrBody t).map (fun p => ('\\' :: p.1, p.2)) := by
  rw [parseStrBody.eq_def]; simp

theorem parseStrBody_esc8 (t : List Char) :
    parseStrBody ('\\' :: 'b' :: t) =
      (parseStrBody t).map (fun p => ('\x08' :: p.1, p.2)) := by
  rw [parseStrBody.eq_def]; simp

theorem parseStrBody_esc9 (t : List Char) :
    parseStrBody ('\\' :: 't' :: t) =
      (parseStrBody t).map (fun p => ('\x09' :: p.1, p.2)) := by
  rw [parseStrBody.eq_def]; simp

theorem parseStrBody_escn (t : List Char) :
    parseStrBody ('\\' :: 'n' :: t) =
      (parseStrBody t).map (fun p => ('\x0a' :: p.1, p.2)) := by
  rw [parseStrBody.eq_def]; simp

theorem parseStrBody_escf (t : List Char) :
    parseStrBody ('\\' :: 'f' :: t) =
      (parseStrBody t).map (fun p => ('\x0c' :: p.1, p.2)) := by
  rw [parseStrBody.eq_def]; simp

theorem parseStrBody_escr (t : List Char) :
    parseStrBody ('\\' :: 'r' :: t) =
      (parseStrBody t).map (fun p => ('\x0d' :: p.1, p.2)) := by
  rw [parseStrBody.eq_def]; simp

theorem parseStrBody_escu (h1 h2 h3 h4 : Char) (t : List Char) :
    parseStrBody ('\\' :: 'u' :: h1 :: h2 :: h3 :: h4 :: t) =
      (parseStrBody t).map (fun p =>
        (Char.ofNat (((hexVal h1 * 16 + hexVal h2) * 16 + hexVal h3) * 16 + hexVal h4)
          :: p.1, p.2)) := by
  rw [parseStrBody.eq_def]; simp

theorem parseStrBody_plain (c : Char) (t : List Char) (hc1 : ¬ c = '"')
    (hc2 : ¬ c = '\\') :
    parseStrBody (c :: t) = (parseStrBody t).map (fun p => (c :: p.1, p.2)) := by
  rw [parseStrBody.eq_def]
  simp [hc1, hc2]

theorem parseStrBody_roundtrip :
    ∀ (s t : List Char), parseStrBody (s.flatMap escChar ++ '"' :: t) = some (s, t) := by
  intro s
  induction s with
  | nil => intro t; exact parseStrBody_quote t
  | cons c s ih =>
    intro t
    have hshape : (c :: s).flatMap escChar ++ '"' :: t =
        escChar c ++ (s.flatMap escChar ++ '"' :: t) := by
      simp [List.flatMap_cons]
    rw [hshape]
    by_cases h1 : c = '"'
    · subst h1
      simp only [escChar, reduceIte, List.cons_append, List.nil_append,
        parseStrBody_escq, ih] <;> rfl
    · by_cases h2 : c = '\\'
      · subst h2
        simp only [escChar, if_neg h1, reduceIte, List.cons_append, List.nil_append,
          parseStrBody_escb, ih] <;> rfl
      · by_cases h3 : c = '\x08'
        · subst h3
          simp only [escChar, if_neg h1, if_neg h2, reduceIte, List.cons_append,
            List.nil_append, parseStrBody_esc8, ih] <;> rfl
        · by_cases h4 : c = '\x09'
          · subst h4
            simp only [escChar, if_neg h1, if_neg h2, if_neg h3, reduceIte,
              List.cons_append, List.nil_append, parseStrBody_esc9, ih] <;> rfl
          · by_cases h5 : c = '\x0a'
            · subst h5
              simp only [escChar, if_neg h1, if_neg h2, if_neg h3, if_neg h4,
                reduceIte, List.cons_append, List.nil_append,
                parseStrBody_escn, ih] <;> rfl
            · by_cases h6 : c = '\x0c'
              · subst h6
                simp only [escChar, if_neg h1, if_neg h2, if_neg h3, if_neg h4,
                  if_neg h5, reduceIte, List.cons_append, List.nil_append,
                  parseStrBody_escf, ih] <;> rfl
              · by_cases h7 : c = '\x0d'
                · subst h7
                  simp only [escChar, if_neg h1, if_neg h2, if_neg h3, if_neg h4,
                    if_neg h5, if_neg h6, reduceIte, List.cons_append, List.nil_append,
                    parseStrBody_escr, ih] <;> rfl
                · by_cases h8 : c.toNat < 32
                  · have hv1 : hexVal (hexDigitChar (c.toNat / 16)) = c.toNat / 16 :=
                      hexVal_hexDigitChar _ (by omega)
                    have hv2 : hexVal (hexDigitChar (c.toNat % 16)) = c.toNat % 16 :=
                      hexVal_hexDigitChar _ (by omega)
                    have hv0 : hexVal '0' = 0 := by decide
                    have hch : Char.ofNat
                        (((hexVal '0' * 16 + hexVal '0') * 16 +
                          hexVal (hexDigitChar (c.toNat / 16))) * 16 +
                            hexVal (hexDigitChar (c.toNat % 16))) = c := by
                      rw [hv0, hv1, hv2]
                      have hc2 : ((0 * 16 + 0) * 16 + c.toNat / 16) * 16 + c.toNat % 16
                          = c.toNat := by omega
                      rw [hc2, Char.ofNat_toNat]
                    simp only [escChar, if_neg h1, if_neg h2, if_neg h3, if_neg h4,
                      if_neg h5, if_neg h6, if_neg h7, if_pos h8, List.cons_append,
                      List.nil_append, parseStrBody_escu, ih, hch] <;> rfl
                  · simp only [escChar, if_neg h1, if_neg h2, if_neg h3, if_neg h4,
                      if_neg h5, if_neg h6, if_neg h7, if_neg h8, List.cons_append,
                      List.nil_append, parseStrBody_plain c _ h1 h2, ih] <;> rfl

theorem quoteJson_unique (s1 s2 : String) (t1 t2 : List Char)
    (h : quoteJson s1 ++ t1 = quoteJson s2 ++ t2) : s1 = s2 ∧ t1 = t2 := by
  have h2 : s1.toList.flatMap escChar ++ '"' :: t1 =
      s2.toList.flatMap escChar ++ '"' :: t2 := by
    have := h
    simp only [quoteJson, List.cons_append, List.cons.injEq, List.append_assoc,
      List.singleton_append] at this
    exact this.2
  have h3 := parseStrBody_roundtrip s1.toList t1
  rw [h2, parseStrBody_roundtrip s2.toList t2] at h3
  have h4 := Option.some.inj h3
  have h5 : s2.toList = s1.toList := congrArg Prod.fst h4
  have h6 : t2 = t1 := congrArg Prod.snd h4
  refine ⟨?_, h6.symm⟩
  have : s2.data = s1.data := h5
  cases s1; cases s2
  exact congrArg String.mk this.symm

/-! ### Fingerprint injectivity (C6): decimal numbers -/

theorem natRenderAux_canonical :
    ∀ (fuel n : Nat), n ≤ fuel →
    natRenderAux fuel n = ((Nat.digits 10 n).map digitChar).reverse := by
  intro fuel
  induction fuel with
  | zero =>
    intro n h
    interval_cases n
    simp [natRenderAux]
  | succ f ih =>
    intro n h
    by_cases hn : n = 0
    · subst hn; simp [natRenderAux]
    · have hlt : n / 10 < n := Nat.div_lt_self (Nat.pos_of_ne_zero hn) (by norm_num)
      rw [natRenderAux, if_neg hn, ih (n / 10) (by omega),
        Nat.digits_def' (by norm_num : 1 < 10) (Nat.pos_of_ne_zero hn)]
      simp

theorem natRender_canonical (n : Nat) (hn : n ≠ 0) :
    natRender n = ((Nat.digits 10 n).map digitChar).reverse := by
  rw [natRender, if_neg hn]
  exact natRenderAux_canonical n n le_rfl

theorem digitChar_inj : ∀ a < 10, ∀ b < 10, digitChar a = digitChar b → a = b := by decide

theorem digitChar_isDigit : ∀ d < 10, isDigitC (digitChar d) = true := by decide

theorem map_digitChar_inj :
    ∀ (l1 l2 : List Nat), (∀ x ∈ l1, x < 10) → (∀ x ∈ l2, x < 10) →
    l1.map digitChar = l2.map digitChar → l1 = l2 := by
  intro l1
  induction l1 with
  | nil =>
    intro l2 _ _ h
    cases l2 with
    | nil => rfl
    | cons b t2 => simp at h
  | cons a t ih =>
    intro l2 h1 h2 h
    cases l2 with
    | nil => simp at h
    | cons b t2 =>
      simp only [List.map_cons, List.cons.injEq] at h
      have ha := digitChar_inj a (h1 a (by simp)) b (h2 b (by simp)) h.1
      rw [ha, ih t2 (fun x hx => h1 x (by simp [hx])) (fun x hx => h2 x (by simp [hx])) h.2]

theorem natRender_inj (m n : Nat) (h : natRender m = natRender n) : m = n := by
  by_cases hm : m = 0 <;> by_cases hn : n = 0
  · omega
  · exfalso
    rw [natRender, if_pos hm, natRender_canonical n hn] at h
    have h2 : (Nat.digits 10 n).map digitChar = ['0'] := by
      have := congrArg List.reverse h
      simpa using this.symm
    cases hd : Nat.digits 10 n with
    | nil => rw [hd] at h2; simp at h2
    | cons d t =>
      rw [hd] at h2
      simp only [List.map_cons, List.cons.injEq, List.map_eq_nil_iff] at h2
      have hd10 : d < 10 := Nat.digits_lt_base (by norm_num) (by rw [hd]; simp)
      have hd0 : d = 0 := digitChar_inj d hd10 0 (by norm_num) (by rw [h2.1]; rfl)
      have hz : n = 0 := by
        have hof := Nat.ofDigits_digits 10 n
        rw [hd, h2.2, hd0] at hof
        simpa [Nat.ofDigits] using hof.symm
      exact hn hz
  · exfalso
    rw [natRender_canonical m hm, natRender, if_pos hn] at h
    have h2 : (Nat.digits 10 m).map digitChar = ['0'] := by
      have := congrArg List.reverse h
      simpa using this
    cases hd : Nat.digits 10 m with
    | nil => rw [hd] at h2; simp at h2
    | cons d t =>
      rw [hd] at h2
      simp only [List.map_cons, List.cons.injEq, List.map_eq_nil_iff] at h2
      have hd10 : d < 10 := Nat.digits_lt_base (by norm_num) (by rw [hd]; simp)
      have hd0 : d = 0 := digitChar_inj d hd10 0 (by norm_num) (by rw [h2.1]; rfl)
      have hz : m = 0 := by
        have hof := Nat.ofDigits_digits 10 m
        rw [hd, h2.2, hd0] at hof
        simpa [Nat.ofDigits] using hof.symm
      exact hm hz
  · rw [natRender_canonical m hm, natRender_canonical n hn] at h
    have h2 := List.reverse_injective h
    have h3 := map_digitChar_inj _ _
      (fun x hx => Nat.digits_lt_base (by norm_num) hx)
      (fun x hx => Nat.digits_lt_base (by norm_num) hx) h2
    calc m = Nat.ofDigits 10 (Nat.digits 10 m) := (Nat.ofDigits_digits 10 m).symm
    _ = Nat.ofDigits 10 (Nat.digits 10 n) := by rw [h3]
    _ = n := Nat.ofDigits_digits 10 n

theorem natRender_all_digits (n : Nat) : ∀ c ∈ natRender n, isDigitC c = true := by
  by_cases hn : n = 0
  · subst hn
    intro c hc
    simp [natRender] at hc
    subst hc
    decide
  · rw [natRender_canonical n hn]
    intro c hc
    simp only [List.mem_reverse, List.mem_map] at hc
    obtain ⟨d, hd, hdc⟩ := hc
    rw [← hdc]
    exact digitChar_isDigit d (Nat.digits_lt_base (by norm_num) hd)

theorem natRender_ne_nil (n : Nat) : natRender n ≠ [] := by
  by_cases hn : n = 0
  · subst hn; simp [natRender]
  · rw [natRender_canonical n hn]
    simp [Nat.digits_ne_nil_iff_ne_zero.mpr hn]

theorem takeWhile_all_append (p : Char → Bool) :
    ∀ (l t : List Char), (∀ c ∈ l, p c = true) → headNot p t →
    ((l ++ t).takeWhile p = l ∧ (l ++ t).dropWhile p = t) := by
  intro l
  induction l with
  | nil =>
    intro t _ ht
    cases t with
    | nil => simp
    | cons c t2 =>
      have := ht c rfl
      simp [List.takeWhile_cons, List.dropWhile_cons, this]
  | cons a l2 ih =>
    intro t h ht
    have ha := h a (by simp)
    have ihr := ih t (fun c hc => h c (by simp [hc])) ht
    simp [List.takeWhile_cons, List.dropWhile_cons, ha, ihr.1, ihr.2]

theorem natRender_unique (m n : Nat) (t1 t2 : List Char)
    (h : natRender m ++ t1 = natRender n ++ t2)
    (h1 : headNot isDigitC t1) (h2 : headNot isDigitC t2) : m = n ∧ t1 = t2 := by
  have a1 := takeWhile_all_append isDigitC (natRender m) t1 (natRender_all_digits m) h1
  have a2 := takeWhile_all_append isDigitC (natRender n) t2 (natRender_all_digits n) h2
  have hr : natRender m = natRender n := by rw [← a1.1, ← a2.1, h]
  exact ⟨natRender_inj m n hr, by rw [← a1.2, ← a2.2, h]⟩

theorem intRender_unique (a b : Int) (t1 t2 : List Char)
    (h : intRender a ++ t1 = intRender b ++ t2)
    (h1 : headNot isDigitC t1) (h2 : headNot isDigitC t2) : a = b ∧ t1 = t2 := by
  by_cases ha : a < 0 <;> by_cases hb : b < 0
  · rw [intRender, if_pos ha, intRender, if_pos hb] at h
    simp only [List.cons_append, List.cons.injEq, true_and] at h
    have hr := natRender_unique _ _ _ _ h h1 h2
    refine ⟨?_, hr.2⟩
    have := hr.1
    omega
  · exfalso
    rw [intRender, if_pos ha, intRender, if_neg hb] at h
    cases hnr : natRender b.natAbs with
    | nil => exact natRender_ne_nil _ hnr
    | cons c cs =>
      rw [hnr] at h
      simp only [List.cons_append, List.cons.injEq] at h
      have hd := natRender_all_digits b.natAbs c (by rw [hnr]; simp)
      rw [← h.1] at hd
      exact absurd hd (by decide)
  · exfalso
    rw [intRender, if_neg ha, intRender, if_pos hb] at h
    cases hnr : natRender a.natAbs with
    | nil => exact natRender_ne_nil _ hnr
    | cons c cs =>
      rw [hnr] at h
      simp only [List.cons_append, List.cons.injEq] at h
      have hd := natRender_all_digits a.natAbs c (by rw [hnr]; simp)
      rw [h.1] at hd
      exact absurd hd (by decide)
  · rw [intRender, if_neg ha, intRender, if_neg hb] at h
    have hr := natRender_unique _ _ _ _ h h1 h2
    refine ⟨?_, hr.2⟩
    have := hr.1
    omega

/-! ### Fingerprint injectivity (C6): structure -/

theorem headNot_cons (p : Char → Bool) (c : Char) (z : List Char) (hp : p c = false) :
    headNot p (c :: z) := by
  intro c2 hc2
  simp only [List.head?_cons, Option.some.injEq] at hc2
  rw [← hc2]
  exact hp

theorem renderHashedElement_unique (e1 e2 : HashedElement) (t1 t2 : List Char)
    (h : renderHashedElement e1 ++ t1 = renderHashedElement e2 ++ t2) :
    e1 = e2 ∧ t1 = t2 := by
  cases hx1 : e1.text with
  | some s1x =>
    cases hx2 : e2.text with
    | some s2x =>
      simp only [renderHashedElement, hx1, hx2, List.append_assoc,
        List.singleton_append] at h
      have h2 := List.append_cancel_left h
      obtain ⟨htag, h3⟩ := quoteJson_unique _ _ _ _ h2
      have h4 := List.append_cancel_left h3
      obtain ⟨htext, h5⟩ := quoteJson_unique _ _ _ _ h4
      have h6 := List.append_cancel_left h5
      obtain ⟨hx, h7⟩ := intRender_unique _ _ _ _ h6
        (headNot_cons _ ',' _ (by decide)) (headNot_cons _ ',' _ (by decide))
      have h8 := List.append_cancel_left h7
      obtain ⟨hy, h9⟩ := intRender_unique _ _ _ _ h8
        (headNot_cons _ '\x7d' _ (by decide)) (headNot_cons _ '\x7d' _ (by decide))
      have ht : t1 = t2 := by simpa using h9
      refine ⟨?_, ht⟩
      cases e1; cases e2
      simp_all
    | none =>
      exfalso
      simp only [renderHashedElement, hx1, hx2, List.append_assoc,
        List.singleton_append, List.nil_append] at h
      have h2 := List.append_cancel_left h
      obtain ⟨htag, h3⟩ := quoteJson_unique _ _ _ _ h2
      simp only [litText, litX, List.cons_append, List.cons.injEq] at h3
      exact absurd h3.2.2.1 (by decide)
  | none =>
    cases hx2 : e2.text with
    | some s2x =>
      exfalso
      simp only [renderHashedElement, hx1, hx2, List.append_assoc,
        List.singleton_append, List.nil_append] at h
      have h2 := List.append_cancel_left h
      obtain ⟨htag, h3⟩ := quoteJson_unique _ _ _ _ h2
      simp only [litText, litX, List.cons_append, List.cons.injEq] at h3
      exact absurd h3.2.2.1 (by decide)
    | none =>
      simp only [renderHashedElement, hx1, hx2, List.append_assoc,
        List.singleton_append, List.nil_append] at h
      have h2 := List.append_cancel_left h
      obtain ⟨htag, h3⟩ := quoteJson_unique _ _ _ _ h2
      have h4 := List.append_cancel_left h3
      obtain ⟨hx, h5⟩ := intRender_unique _ _ _ _ h4
        (headNot_cons _ ',' _ (by decide)) (headNot_cons _ ',' _ (by decide))
      have h6 := List.append_cancel_left h5
      obtain ⟨hy, h7⟩ := intRender_unique _ _ _ _ h6
        (headNot_cons _ '\x7d' _ (by decide)) (headNot_cons _ '\x7d' _ (by decide))
      have ht : t1 = t2 := by simpa using h7
      refine ⟨?_, ht⟩
      cases e1; cases e2
      simp_all

theorem renderHashedElement_head (e : HashedElement) (z : List Char) :
    (renderHashedElement e ++ z).head? = some '\x7b' := by
  simp [renderHashedElement, litTag]

theorem renderElementList_unique :
    ∀ (l1 l2 : List HashedElement) (t1 t2 : List Char),
    renderElementList l1 ++ ']' :: t1 = renderElementList l2 ++ ']' :: t2 →
    l1 = l2 ∧ t1 = t2 := by
  intro l1
  induction l1 with
  | nil =>
    intro l2 t1 t2 h
    cases l2 with
    | nil => simpa using h
    | cons e r =>
      exfalso
      have hh := congrArg List.head? h
      cases r with
      | nil =>
        simp only [renderElementList, List.nil_append, List.head?_cons,
          renderHashedElement_head] at hh
        exact absurd hh (by decide)
      | cons e2 r2 =>
        simp only [renderElementList, List.nil_append, List.head?_cons,
          List.append_assoc, renderHashedElement_head] at hh
        exact absurd hh (by decide)
  | cons e1 r1 ih =>
    intro l2 t1 t2 h
    cases l2 with
    | nil =>
      exfalso
      have hh := congrArg List.head? h
      cases r1 with
      | nil =>
        simp only [renderElementList, List.nil_append, List.head?_cons,
          renderHashedElement_head] at hh
        exact absurd hh (by decide)
      | cons e2 r2 =>
        simp only [renderElementList, List.nil_append, List.head?_cons,
          List.append_assoc, renderHashedElement_head] at hh
        exact absurd hh (by decide)
    | cons e2 r2 =>
      cases r1 with
      | nil =>
        cases r2 with
        | nil =>
          simp only [renderElementList] at h
          obtain ⟨he, ht⟩ := renderHashedElement_unique e1 e2 _ _ h
          have ht2 : t1 = t2 := by simpa using ht
          simp [he, ht2]
        | cons e2b r2b =>
          exfalso
          simp only [renderElementList, List.append_assoc, List.cons_append] at h
          obtain ⟨he, ht⟩ := renderHashedElement_unique e1 e2 _ _ h
          simp at ht
      | cons e1b r1b =>
        cases r2 with
        | nil =>
          exfalso
          simp only [renderElementList, List.append_assoc, List.cons_append] at h
          obtain ⟨he, ht⟩ := renderHashedElement_unique e1 e2 _ _ h
          simp at ht
        | cons e2b r2b =>
          simp only [renderElementList, List.append_assoc, List.cons_append] at h
          obtain ⟨he, ht⟩ := renderHashedElement_unique e1 e2 _ _ h
          have ht2 := List.cons.inj ht
          obtain ⟨hr, ht3⟩ := ih (e2b :: r2b) t1 t2 ht2.2
          simp [he, hr, ht3]

theorem renderStateHashData_inj (d1 d2 : StateHashData)
    (h : renderStateHashData d1 = renderStateHashData d2) : d1 = d2 := by
  simp only [renderStateHashData, List.append_assoc] at h
  have h2 := List.append_cancel_left h
  obtain ⟨hurl, h3⟩ := quoteJson_unique _ _ _ _ h2
  have h4 := List.append_cancel_left h3
  obtain ⟨htitle, h5⟩ := quoteJson_unique _ _ _ _ h4
  have h6 := List.append_cancel_left h5
  obtain ⟨hcount, h7⟩ := natRender_unique _ _ _ _ h6
    (headNot_cons _ ',' _ (by decide)) (headNot_cons _ ',' _ (by decide))
  have h8 := List.append_cancel_left h7
  obtain ⟨helems, _⟩ := renderElementList_unique d1.elements d2.elements _ _ h8
  cases d1; cases d2
  simp_all

/-- **C6.** The fingerprint is a deterministic function of
{url, title, element count, first 20 elements' (tag, text truncated to 50
characters, x, y)}: two snapshots agree on that projection exactly when their
computed fingerprints are equal — so equal projections give equal
fingerprints, and a difference in any of those fields changes the
fingerprint. -/
theorem computeStateHash_eq_iff (s1 s2 : BrowserState) :
    computeStateHash s1 = computeStateHash s2 ↔ stateHashData s1 = stateHashData s2 := by
  constructor
  · intro h
    have h2 : renderStateHashData (stateHashData s1) =
        renderStateHashData (stateHashData s2) := by
      have h3 := congrArg String.data h
      simpa [computeStateHash, List.asString] using h3
    exact renderStateHashData_inj _ _ h2
  · intro h
    simp [computeStateHash, h]

/-- Witness for C6: the characterization applied at two concrete snapshots
differing only in the url field. -/
theorem computeStateHash_eq_iff_witness :
    (computeStateHash emptyBrowserState =
        computeStateHash { emptyBrowserState with url := "x" } ↔
      stateHashData emptyBrowserState =
        stateHashData { emptyBrowserState with url := "x" }) :=
  computeStateHash_eq_iff emptyBrowserState { emptyBrowserState with url := "x" }

end Dolos
